import Mathlib

/-!
# Verification of the tlang expression compiler (`src/lang/tlang.h`)

This file gives a shallow embedding of the data model and the compilation
pipeline of the tlang DSL compiler and proves or refutes the frozen claims
about it.

Modelling conventions:
* C++ `int64`/`int` become `Int`; machine division `/` and remainder `%`
  on signed integers truncate towards zero, so they are embedded as
  `Int.tdiv` and `Int.tmod`.
* `TC_ASSERT`/`TC_ERROR` abort compilation; fallible code is embedded in
  `Except String`.
* The reference-counted expression DAG is embedded as an arena:
  a node is identified by its index (`Nat`) into `St.nodes`, pointer
  equality of `Expr` handles becomes index equality, and the mutation the
  pipeline performs on shared nodes becomes explicit state passing.
  `scalar_to_vector` becomes the association list `St.memo`; the order in
  which `code_gen` assigns variable names is recorded in `St.order` and the
  emitted source lines in `St.code`.
* Unbounded `while` loops and recursion over the DAG take an explicit fuel
  argument (structural recursion, so that concrete runs reduce); running
  out of fuel is an error.
-/

namespace Tlang

/-- `struct Address` from `tlang.h`. All fields are C++ `int64`. -/
structure Address where
  stream_id : Int
  coeff_i : Int
  coeff_imax : Int
  coeff_const : Int
  coeff_aosoa_group_size : Int
  coeff_aosoa_stride : Int
deriving DecidableEq, Repr

/-- The C++ default constructor `Address()`: sentinel stream id `-1`, all
coefficients zero. -/
instance : Inhabited Address :=
  ⟨{ stream_id := -1, coeff_i := 0, coeff_imax := 0, coeff_const := 0,
     coeff_aosoa_group_size := 0, coeff_aosoa_stride := 0 }⟩

/-- `Address::initialized()`: the stream id is not the `-1` sentinel. -/
def Address.initialized (a : Address) : Bool :=
  a.stream_id != -1

/-- `Address::same_type(o)`: all coefficients agree except the constant
offset. -/
def Address.same_type (a o : Address) : Bool :=
  a.stream_id == o.stream_id && a.coeff_i == o.coeff_i &&
    a.coeff_imax == o.coeff_imax &&
    a.coeff_aosoa_group_size == o.coeff_aosoa_group_size &&
    a.coeff_aosoa_stride == o.coeff_aosoa_stride

/-- `Address::operator==(o)`, transcribed exactly: note that the last
conjunct compares the left operand's `coeff_aosoa_stride` with the right
operand's `coeff_aosoa_group_size`. -/
def Address.addrEq (a o : Address) : Bool :=
  a.stream_id == o.stream_id && a.coeff_i == o.coeff_i &&
    a.coeff_imax == o.coeff_imax && a.coeff_const == o.coeff_const &&
    a.coeff_aosoa_group_size == o.coeff_aosoa_group_size &&
    a.coeff_aosoa_stride == o.coeff_aosoa_group_size

/-- `Address::offset()`. -/
def Address.offset (a : Address) : Int :=
  a.coeff_const

/-- `Address::eval(i, n)`. The C++ body asserts `initialized()` first; the
arithmetic is embedded with truncating division (`Int.tdiv`), matching C++
`int64` division. -/
def Address.eval (a : Address) (i n : Int) : Int :=
  if a.coeff_aosoa_stride ≠ 0 then
    a.coeff_i * i + a.coeff_imax * n + a.coeff_const +
      Int.tdiv i a.coeff_aosoa_group_size * a.coeff_aosoa_stride
  else
    a.coeff_i * i + a.coeff_imax * n + a.coeff_const

/-- `CodeGen::prior_to(a, b)` lifted to the addresses it actually reads:
same type and the constant offset increases by exactly one. -/
def priorTo (a b : Address) : Bool :=
  a.same_type b && (a.offset + 1 == b.offset)

/-- `Node::Type`. -/
inductive NType where
  | mul | add | sub | div | load | store | combine | constant
deriving DecidableEq, Repr

/-- An IR `Node`. `ch` and `members` hold arena indices of the child and
member expressions; `varName` is `some k` once `code_gen` has assigned the
variable counter `k` to the node (the empty `var_name` string is `none`). -/
structure VNode where
  ntype : NType
  ch : List Nat
  members : List Nat
  addr : Address
  isVec : Bool
  varName : Option Nat
deriving DecidableEq, Repr

/-- Reads of an out-of-range arena index produce this placeholder node; it
is never a vectorized node, so the code generator rejects it. -/
instance : Inhabited VNode :=
  ⟨{ ntype := .constant, ch := [], members := [], addr := default,
     isVec := false, varName := none }⟩

/-- The mutable state of a compilation pipeline: the node arena, the
`scalar_to_vector` map, the `var_count` counter, the order in which nodes
were assigned variable names (and hence had their code emitted), and the
emitted source lines. -/
structure St where
  nodes : List VNode
  memo : List (Nat × Nat)
  varCount : Nat
  order : List Nat
  code : List String
deriving DecidableEq, Repr

/-- Dereference an arena index (out-of-range reads give the placeholder). -/
def getN (st : St) (i : Nat) : VNode :=
  st.nodes.getD i default

/-- Overwrite the node at an index (mutation of a shared `Node`). -/
def setN (st : St) (i : Nat) (v : VNode) : St :=
  { st with nodes := st.nodes.set i v }

/-- Allocate a fresh node at index `st.nodes.length`. -/
def pushN (st : St) (v : VNode) : St :=
  { st with nodes := st.nodes ++ [v] }

/-- Lookup in the `scalar_to_vector` association list. -/
def memoLookup (m : List (Nat × Nat)) (k : Nat) : Option Nat :=
  (m.find? (fun p => p.1 == k)).map (·.2)

/-- The free function `load(addr)`: assert the address is initialized and
its stream id lies in `[0, 3)`, then return a childless load node carrying
the address. -/
def loadFactory (addr : Address) : Except String VNode :=
  if addr.initialized = false then
    .error "TC_ASSERT failed: addr.initialized()"
  else if ¬(0 ≤ addr.stream_id ∧ addr.stream_id < 3) then
    .error "TC_ASSERT failed: 0 <= addr.stream_id && addr.stream_id < 3"
  else
    .ok { ntype := .load, ch := [], members := [], addr := addr,
          isVec := false, varName := none }

/-- Outcome of `Except` computations, for stating success conditions. -/
def exOk {ε α : Type} : Except ε α → Bool
  | .ok _ => true
  | .error _ => false

/-!
## The vectorizer (`CodeGen::vectorize`)
-/

/-- The per-chunk adjacency classification of
`CodeGen::vectorize(expr, group_size, num_groups)`: walk the consecutive
pairs of member addresses accumulating the `has_prior_to` / `has_same`
flags, aborting with `TC_ERROR` on a pair that is neither prior-to nor
`operator==`-equal. -/
def adjacencyFlags : Bool → Bool → List Address → Except String (Bool × Bool)
  | hp, hs, a :: b :: rest =>
    if priorTo a b then adjacencyFlags true hs (b :: rest)
    else if a.addrEq b then adjacencyFlags hp true (b :: rest)
    else .error "Addresses in SIMD load should be either identical or neighbouring."
  | hp, hs, _ => .ok (hp, hs)

/-- One chunk passes the pack-forming check when every consecutive pair is
classified and the final `TC_ASSERT(!(has_prior_to && has_same))` holds. -/
def chunkCheckOk (l : List Address) : Bool :=
  match adjacencyFlags false false l with
  | .ok (hp, hs) => !(hp && hs)
  | .error _ => false

/-- Split a list into consecutive chunks of `gs` elements (the iteration
`for k; for i in [k*gs, (k+1)*gs)` of `vectorize`). Structural fuel
recursion; the fuel `l.length` is always sufficient for `gs ≠ 0`. -/
def chunksOfGo (gs : Nat) : Nat → List α → List (List α)
  | _, [] => []
  | 0, l => [l]
  | fuel + 1, l => l.take gs :: chunksOfGo gs fuel (l.drop gs)

/-- The chunks of `gs` consecutive elements of `l`. -/
def chunksOf (gs : Nat) (l : List α) : List (List α) :=
  chunksOfGo gs l.length l

/-- The adjacency check `vectorize` performs over all store chunks of a
combine root, expressed on the chunk addresses. -/
def packAdjCheckOk (gs : Nat) (addrs : List Address) : Bool :=
  (chunksOf gs addrs).all chunkCheckOk

/-- The member loop of the chunk-forming pass, on arena indices: each
member must be a `store` node (`TC_ASSERT(ch->type == NodeType::store)`),
and each consecutive pair of member addresses is classified into the
`has_prior_to` / `has_same` flags exactly as in `adjacencyFlags`. -/
def buildPackFlags (st : St) : Option Nat → Bool → Bool → List Nat →
    Except String (Bool × Bool)
  | _, hp, hs, [] => .ok (hp, hs)
  | prev, hp, hs, c :: rest =>
    if (getN st c).ntype ≠ NType.store then
      .error "TC_ASSERT failed: ch->type == NodeType::store"
    else
      match prev with
      | none => buildPackFlags st (some c) hp hs rest
      | some p =>
        if priorTo (getN st p).addr (getN st c).addr then
          buildPackFlags st (some c) true hs rest
        else if (getN st p).addr.addrEq (getN st c).addr then
          buildPackFlags st (some c) hp true rest
        else
          .error "Addresses in SIMD load should be either identical or neighbouring."

/-- The synthetic-children loop of the recursive `vectorize`: for each
child index, create a fresh node whose `members` are that index's children
of the scalar members, push it into `p`'s child list, and recursively
vectorize it. The child pushed into `p`'s child list is the freshly
created node: the C++ `vectorize(ch)` call can only rebind the local
variable `ch`, not the copy already stored in `expr->ch`, so the returned
index of the recursive call (`rec`) is discarded exactly as the source
discards it. -/
def vectorizeKids (rec : St → Nat → Except String (Nat × St)) (p : Nat) :
    St → List (List Nat) → Except String St
  | st, [] => .ok st
  | st, l :: rest => do
    let cid := st.nodes.length
    let stA := pushN st
      { ntype := (getN st (l.getD 0 0)).ntype, ch := [], members := l,
        addr := default, isVec := false, varName := none }
    let stB := setN stA p { getN stA p with ch := (getN stA p).ch ++ [cid] }
    let (_, stC) ← rec stB cid
    vectorizeKids rec p stC rest

/-- The recursive `CodeGen::vectorize(Expr &expr)` on a pack node `p`
whose `members` are already set.

* If `scalar_to_vector` already contains `members[0]`, assert that the
  member lists coincide and return the existing node in place of `p`.
* Otherwise mark `p` vectorized, check the members are structurally
  isomorphic (same kind, same arity, none already vectorized elsewhere),
  build one synthetic child per child index (see `vectorizeKids`), and
  finally copy `members[0]`'s address onto `p`, defaulting an unset AOSOA
  group size to `num_groups` with stride `0`. -/
def vectorizeRec (gs ng : Nat) : Nat → St → Nat → Except String (Nat × St)
  | 0, _, _ => .error "out of fuel in vectorize"
  | fuel + 1, st, p =>
    let pn := getN st p
    match memoLookup st.memo (pn.members.getD 0 0) with
    | some v =>
      if (getN st v).members = pn.members then .ok (v, st)
      else .error "TC_ASSERT failed: existing->members[i] == expr->members[i]"
    | none =>
      let st1 := setN st p { pn with isVec := true }
      if pn.members.any (fun m => (memoLookup st1.memo m).isSome) then
        .error "TC_ASSERT failed: scalar_to_vector.find(member) == scalar_to_vector.end()"
      else
        let m0 := getN st1 (pn.members.getD 0 0)
        if pn.members.any (fun m => (getN st1 m).ntype ≠ m0.ntype) then
          .error "TC_ASSERT failed: type == member->type"
        else if pn.members.any (fun m => (getN st1 m).ch.length ≠ m0.ch.length) then
          .error "TC_ASSERT failed: vectorized_children.size() == member->ch.size()"
        else if pn.members.length % gs ≠ 0 then
          .error "TC_ASSERT failed: expr->members.size() % group_size == 0"
        else
          let childLists :=
            (List.range m0.ch.length).map
              (fun i => pn.members.map (fun m => (getN st1 m).ch.getD i 0))
          do
            let st2 ← vectorizeKids
              (fun s i => vectorizeRec gs ng fuel s i) p st1 childLists
            let a0 := (getN st2 (pn.members.getD 0 0)).addr
            let a1 :=
              if a0.coeff_aosoa_group_size = 0 then
                { a0 with coeff_aosoa_group_size := (ng : Int),
                          coeff_aosoa_stride := 0 }
              else a0
            .ok (p, setN st2 p { getN st2 p with addr := a1 })

/-- The chunk loop of the top-level `vectorize`: for each chunk of
`group_size` store children, create a vectorized store pack carrying the
chunk as members, run the member checks and the mixed-adjacency assert,
recursively vectorize the pack, and append the (possibly replaced) pack to
the new combine root `cid`. -/
def processChunks (gs ng : Nat) : Nat → St → Nat → List Nat →
    Except String (Nat × St)
  | 0, _, _, _ => .error "out of fuel in vectorize chunk loop"
  | _ + 1, st, cid, [] => .ok (cid, st)
  | fuel + 1, st, cid, l@(_ :: _) =>
    let chunk := l.take gs
    let pid := st.nodes.length
    let stA := pushN st
      { ntype := .store, ch := [], members := chunk, addr := default,
        isVec := true, varName := none }
    do
      let (hp, hs) ← buildPackFlags stA none false false chunk
      if hp && hs then
        .error "TC_ASSERT failed: !(has_prior_to && has_same)"
      else
        let (q, stB) ← vectorizeRec gs ng fuel stA pid
        let stC := setN stB cid { getN stB cid with ch := (getN stB cid).ch ++ [q] }
        processChunks gs ng fuel stC cid (l.drop gs)

/-- The top-level `CodeGen::vectorize(expr, group_size, num_groups)`:
assert `group_size * num_groups == simd_width`, clear `scalar_to_vector`,
assert the root is a combine whose arity is a multiple of `group_size`
(`run` additionally asserts `group_size != 0`), create the vectorized
combine root, and process each chunk of stores. -/
def vectorizeTop (simd gs ng fuel : Nat) (st0 : St) (root : Nat) :
    Except String (Nat × St) :=
  if gs * ng ≠ simd then
    .error "TC_ASSERT failed: group_size * num_groups == simd_width"
  else
    let st := { st0 with memo := [] }
    let rn := getN st root
    if gs = 0 then .error "TC_ASSERT failed: group_size != 0"
    else if rn.ch.length % gs ≠ 0 then
      .error "TC_ASSERT failed: expr->ch.size() % group_size == 0"
    else if rn.ntype ≠ NType.combine then
      .error "TC_ASSERT failed: expr->type == NodeType::combine"
    else
      let cid := st.nodes.length
      let st1 := pushN st
        { ntype := .combine, ch := [], members := [], addr := default,
          isVec := true, varName := none }
      processChunks gs ng fuel st1 cid rn.ch

/-!
## The code emitter (`CodeGen::code_gen` and helpers)
-/

/-- Decimal digit character, as printed by `fmt::format("{:0nd}", ...)`. -/
def digitCh (d : Nat) : Char :=
  Char.ofNat (48 + d)

/-- `fmt::format("{:04d}", k)` for the variable counter: four zero-padded
decimal digits (the counter is asserted `< 10000` before formatting, so
larger values never reach this; they fall back to the unpadded form). -/
def pad4 (k : Nat) : String :=
  if k < 10000 then
    String.mk [digitCh (k / 1000 % 10), digitCh (k / 100 % 10),
               digitCh (k / 10 % 10), digitCh (k % 10)]
  else
    toString k

/-- The variable name `fmt::format("var_{:04d}", k)`. -/
def varNameStr (k : Nat) : String :=
  "var_" ++ pad4 k

/-- The `var_name` string of a node: empty until assigned. -/
def vnameOf (v : VNode) : String :=
  match v.varName with
  | none => ""
  | some k => varNameStr k

/-- `CodeGen::create_variable()`: assert `var_count < 10000`, then return
the current counter and increment it. -/
def createVariable (st : St) : Except String (Nat × St) :=
  if st.varCount < 10000 then
    .ok (st.varCount, { st with varCount := st.varCount + 1 })
  else
    .error "TC_ASSERT failed: var_count < 10000"

/-- `fmt::format("{:02d}", s)` for the stream id: zero-padded to a minimum
width of two. -/
def pad2 (s : Int) : String :=
  if 0 ≤ s ∧ s < 10 then "0" ++ toString s else toString s

/-- `CodeGen::get_vectorized_address(addr)`: the address expression
`&stream{s}[coeff_imax * n + stride * g + offset]` with
`stride = coeff_i * num_groups + group_size / aosoa_group_size * aosoa_stride`
(C++ precedence: the division binds first; `Int.tdiv` is C++ `int64`
division). -/
def getVectorizedAddress (gs ng : Nat) (addr : Address) : String :=
  let streamName := "stream" ++ pad2 addr.stream_id
  let stride := addr.coeff_i * (ng : Int) +
    Int.tdiv (gs : Int) addr.coeff_aosoa_group_size * addr.coeff_aosoa_stride
  "&" ++ streamName ++ "[" ++ toString addr.coeff_imax ++ " * n + " ++
    toString stride ++ " * g + " ++ toString addr.coeff_const ++ "]\n"

/-- How the body of a vectorized load was produced. -/
inductive LoadPattern where
  | copy
  | shuffle (imm : String)
deriving DecidableEq, Repr

/-- Observable result of emitting one vectorized load: the emitted source
lines, the (possibly aligned-down) constant offset actually loaded from,
the pattern used for the second line, and the value of the local
`needs_shuffle` flag when emission of the load finishes. -/
structure LoadEmit where
  lines : List String
  alignedConst : Int
  pattern : LoadPattern
  needsShuffle : Bool
deriving DecidableEq, Repr

/-- The consecutive `same_type` asserts over the member addresses of a
vectorized load. -/
def pairwiseSameType : List Address → Bool
  | a :: b :: rest => a.same_type b && pairwiseSameType (b :: rest)
  | _ => true

/-- The `NodeType::load` branch of `CodeGen::code_gen` in vector mode:
assert the members are of the same type and `num_groups` equals the AOSOA
group size; align the constant offset down to a multiple of `simd_width`,
remembering `needs_shuffle`; emit the immediate load; then dispatch on
`group_size`: a plain copy for 1; for 2, select by
`(offset_const, offset_inc) = (offsets[0] % simd_width, offsets[1] - offsets[0])`
among copy `(0,1)`, shuffle `0xA0` `(0,0)` and shuffle `0xF5` `(1,0)`,
anything else unimplemented, and `group_size > 2` is asserted out; the
`group_size > 1` branch finally asserts `needs_shuffle == false`. -/
def codeGenLoadVec (simd gs ng : Nat) (v : String) (nodeAddr : Address)
    (memberAddrs : List Address) : Except String LoadEmit :=
  if pairwiseSameType memberAddrs = false then
    .error "TC_ASSERT failed: members[i]->addr.same_type(members[i+1]->addr)"
  else
    let offsets := memberAddrs.map (·.coeff_const)
    if (ng : Int) ≠ nodeAddr.coeff_aosoa_group_size then
      .error "TC_ASSERT failed: i_stride == addr.coeff_aosoa_group_size"
    else
      let loadInstr := if simd = 8 then "_mm256_load_ps" else "_mm512_load_ps"
      let rem := Int.tmod nodeAddr.coeff_const (simd : Int)
      let needs0 : Bool := rem != 0
      let addr1 :=
        if rem != 0 then { nodeAddr with coeff_const := nodeAddr.coeff_const - rem }
        else nodeAddr
      let line1 := "auto " ++ v ++ "_immediate = " ++ loadInstr ++ "(" ++
        getVectorizedAddress gs ng addr1 ++ ");\n"
      let copyLine := "auto " ++ v ++ " = " ++ v ++ "_immediate;\n"
      if gs = 1 then
        .ok { lines := [line1, copyLine], alignedConst := addr1.coeff_const,
              pattern := .copy, needsShuffle := needs0 }
      else if 2 < gs then
        .error "TC_ASSERT failed: group_size <= 2"
      else
        let offsetConst := Int.tmod (offsets.getD 0 0) (simd : Int)
        let offsetInc := offsets.getD 1 0 - offsets.getD 0 0
        let shuffleEmit := fun (imm : String) =>
          { lines := [line1, "auto " ++ v ++ " = _mm256_shuffle_ps(" ++ v ++
              "_immediate, " ++ v ++ "_immediate, " ++ imm ++ ");\n"],
            alignedConst := addr1.coeff_const, pattern := LoadPattern.shuffle imm,
            needsShuffle := false }
        do
          let res ←
            if offsetConst == 0 && offsetInc == 1 then
              Except.ok { lines := [line1, copyLine],
                          alignedConst := addr1.coeff_const,
                          pattern := LoadPattern.copy, needsShuffle := needs0 }
            else if offsetInc == 0 then
              if offsetConst == 0 then Except.ok (shuffleEmit "0xA0")
              else if offsetConst == 1 then Except.ok (shuffleEmit "0xF5")
              else Except.error "TC_NOT_IMPLEMENTED: unsupported load offsets"
            else Except.error "TC_NOT_IMPLEMENTED: unsupported load offsets"
          if res.needsShuffle then
            Except.error "TC_ASSERT failed: needs_shuffle == false"
          else
            Except.ok res

/-- The binary-operator table populated in `CodeGen::run`. -/
def isBinaryOp : NType → Bool
  | .add | .sub | .mul | .div => true
  | _ => false

/-- The operator strings of the binary-operator table. -/
def binOpStr : NType → String
  | .add => "+"
  | .sub => "-"
  | .mul => "*"
  | .div => "/"
  | _ => ""

/-- The per-node emission of `code_gen` (vector mode), after the variable
name has been assigned: append the source line(s) for the node's kind to
the emitted code, or fail (`constant` and the remaining kinds are
`TC_NOT_IMPLEMENTED`). A `combine` emits nothing. -/
def emitNode (gs ng simd : Nat) (st : St) (e : Nat) : Except String St :=
  let en := getN st e
  if isBinaryOp en.ntype then
    .ok { st with code := st.code ++
      ["auto " ++ vnameOf en ++ " = " ++ vnameOf (getN st (en.ch.getD 0 0)) ++
        " " ++ binOpStr en.ntype ++ " " ++ vnameOf (getN st (en.ch.getD 1 0)) ++
        ";\n"] }
  else if en.ntype = .load then
    do
      let le ← codeGenLoadVec simd gs ng (vnameOf en) en.addr
        (en.members.map (fun m => (getN st m).addr))
      .ok { st with code := st.code ++ le.lines }
  else if en.ntype = .store then
    .ok { st with code := st.code ++
      [(if simd = 8 then "_mm256_store_ps" else "_mm512_store_ps") ++ "(" ++
        getVectorizedAddress gs ng en.addr ++ ", " ++
        vnameOf (getN st (en.ch.getD 0 0)) ++ ");\n"] }
  else if en.ntype = .combine then
    .ok st
  else
    .error "TC_NOT_IMPLEMENTED: code_gen for this node type"

/-- The child recursion `for (auto &c : expr->ch) code_gen(c)` (the arena
embedding has no null children). -/
def codeGenKids (rec : St → Nat → Except String St) :
    St → List Nat → Except String St
  | st, [] => .ok st
  | st, c :: cs => do
    let st1 ← rec st c
    codeGenKids rec st1 cs

/-- `CodeGen::code_gen(expr)`: assert the node is vectorized with `0` or
`group_size` members, recurse into the children first, then — if the node
has no variable name yet — assign the next name and emit its code; a node
that already has a name is a revisit and emits nothing further. -/
def codeGenRec (gs ng simd : Nat) : Nat → St → Nat → Except String St
  | 0, _, _ => .error "out of fuel in code_gen"
  | fuel + 1, st, e =>
    let en := getN st e
    if en.isVec = false then
      .error "TC_ASSERT failed: expr->is_vectorized"
    else if ¬(en.members.length = 0 ∨ en.members.length = gs) then
      .error "TC_ASSERT failed: members.size() == 0 || members.size() == group_size"
    else
      do
        let st1 ← codeGenKids (fun s i => codeGenRec gs ng simd fuel s i) st en.ch
        match (getN st1 e).varName with
        | some _ => .ok st1
        | none =>
          let (v, st2) ← createVariable st1
          let stN := setN st2 e { getN st2 e with varName := some v }
          let st3 := { stN with order := stN.order ++ [e] }
          emitNode gs ng simd st3 e

/-- The pipeline of `CodeGen::run` relevant to the IR: assert
`group_size != 0`, derive `num_groups = simd_width / group_size`,
vectorize the combine root, then emit code for the vectorized root. The
kernel prologue/epilogue strings are constants and are omitted; on any
failure no emitted line is produced. -/
def runModel (simd gs fuel : Nat) (st : St) (root : Nat) :
    Except String (List String) :=
  if gs = 0 then .error "TC_ASSERT failed: group_size != 0"
  else
    let ng := simd / gs
    do
      let (r, st1) ← vectorizeTop simd gs ng fuel st root
      let st2 ← codeGenRec gs ng simd fuel st1 r
      .ok st2.code

/-!
## The SLP grouper (`CodeGen::continuous_loads`)
-/

/-- The candidate scan inside the `while (1)` loop of `continuous_loads`:
the first `j` that is not grouped, differs from `i`, passes the type
re-check of `inst[i]` (the current run end — transcribed exactly as in the
source, which tests `inst[i]->type`, not `inst[j]->type`), and whose
address is prior-to the current one. -/
def findCand (inst : List VNode) (grouped : List Bool) (i : Nat) : Option Nat :=
  (List.range inst.length).find? (fun j =>
    !(grouped.getD j false) && i != j &&
      (inst.getD i default).ntype == NType.load &&
      priorTo (inst.getD i default).addr (inst.getD j default).addr)

/-- The `while (1)` loop of `continuous_loads`, with fuel (each appended
index has a strictly larger constant offset than the previous one, so
`inst.length + 1` rounds always suffice). -/
def contLoadsGo (inst : List VNode) (grouped : List Bool) :
    Nat → Nat → List Nat → List Nat
  | 0, _, acc => acc
  | fuel + 1, i, acc =>
    match findCand inst grouped i with
    | none => acc
    | some j => contLoadsGo inst grouped fuel j (acc ++ [j])

/-- `CodeGen::continuous_loads(i)`: empty if `inst[i]` is grouped or not a
load; otherwise the run starting at `i` extended by repeatedly taking a
candidate `j` and advancing `i ← j`. -/
def continuousLoads (inst : List VNode) (grouped : List Bool) (i : Nat) :
    List Nat :=
  if grouped.getD i false || (inst.getD i default).ntype != NType.load then []
  else contLoadsGo inst grouped (inst.length + 1) i [i]

/-!
## Arena and state lemmas
-/

theorem getN_setN_ne {st : St} {i j : Nat} {v : VNode} (h : j ≠ i) :
    getN (setN st i v) j = getN st j := by
  simp only [getN, setN, List.getD_eq_getElem?_getD]
  rw [List.getElem?_set_ne (Ne.symm h)]

theorem getN_setN_self {st : St} {i : Nat} {v : VNode}
    (h : i < st.nodes.length) :
    getN (setN st i v) i = v := by
  simp only [getN, setN, List.getD_eq_getElem?_getD]
  rw [List.getElem?_set_self h]
  rfl

theorem getN_pushN_ne {st : St} {j : Nat} {v : VNode}
    (h : j ≠ st.nodes.length) :
    getN (pushN st v) j = getN st j := by
  simp only [getN, pushN, List.getD_eq_getElem?_getD]
  rcases Nat.lt_or_ge j st.nodes.length with hj | hj
  · rw [List.getElem?_append_left hj]
  · rw [show st.nodes[j]? = none from List.getElem?_eq_none hj,
      List.getElem?_eq_none (by simp; omega)]

theorem getN_pushN_len {st : St} {v : VNode} :
    getN (pushN st v) st.nodes.length = v := by
  simp only [getN, pushN, List.getD_eq_getElem?_getD]
  rw [List.getElem?_concat_length]
  rfl

theorem getN_oob {st : St} {j : Nat} (h : st.nodes.length ≤ j) :
    getN st j = default := by
  simp only [getN]
  exact List.getD_eq_default _ _ h

@[simp] theorem setN_length {st : St} {i : Nat} {v : VNode} :
    (setN st i v).nodes.length = st.nodes.length := by
  simp [setN]

@[simp] theorem pushN_length {st : St} {v : VNode} :
    (pushN st v).nodes.length = st.nodes.length + 1 := by
  simp [pushN]

@[simp] theorem setN_memo {st : St} {i : Nat} {v : VNode} :
    (setN st i v).memo = st.memo := rfl

@[simp] theorem pushN_memo {st : St} {v : VNode} :
    (pushN st v).memo = st.memo := rfl

/-- Reachability along child edges in a node arena. -/
inductive Reach (ns : List VNode) : Nat → Nat → Prop
  | refl (a : Nat) : Reach ns a a
  | tail {a b c : Nat} : Reach ns a b → c ∈ (ns.getD b default).ch →
      Reach ns a c

/-- Transfer of reachability between two arenas that agree on every node
reachable in the target arena. -/
theorem reach_transfer {ns1 ns2 : List VNode} {a n : Nat}
    (hfix : ∀ m, Reach ns2 a m → ns1.getD m default = ns2.getD m default) :
    Reach ns1 a n → Reach ns2 a n := by
  intro h
  induction h with
  | refl => exact .refl a
  | tail _ hc ih => exact .tail ih (by rw [← hfix _ ih]; exact hc)

/-- Case analysis on a reachability path: the target is the source, or it
is reached through some child of the source. -/
theorem reach_elim {ns : List VNode} {a n : Nat} (h : Reach ns a n) :
    n = a ∨ ∃ c ∈ (ns.getD a default).ch, Reach ns c n := by
  induction h with
  | refl => exact Or.inl rfl
  | tail _ hc ih =>
    rcases ih with rfl | ⟨d, hd, hr⟩
    · exact Or.inr ⟨_, hc, .refl _⟩
    · exact Or.inr ⟨d, hd, .tail hr hc⟩

/-!
## Chunk adjacency: characterization of the flag machinery (C2)
-/

/-- Some consecutive pair of the list is prior-to related. -/
def anyPrior : List Address → Bool
  | a :: b :: rest => priorTo a b || anyPrior (b :: rest)
  | _ => false

/-- Some consecutive pair is classified as identical (not prior-to, but
`operator==`-equal). -/
def anyIdent : List Address → Bool
  | a :: b :: rest => (!priorTo a b && a.addrEq b) || anyIdent (b :: rest)
  | _ => false

/-- Every consecutive pair is prior-to related or `operator==`-equal. -/
def allClassified : List Address → Bool
  | a :: b :: rest => (priorTo a b || a.addrEq b) && allClassified (b :: rest)
  | _ => true

/-- A prior-to pair is never `operator==`-equal: prior-to forces the
constant offsets to differ by one while `operator==` forces them equal. -/
theorem priorTo_addrEq_disjoint {a b : Address} (h1 : priorTo a b = true)
    (h2 : a.addrEq b = true) : False := by
  simp only [priorTo, Address.same_type, Address.offset, Bool.and_eq_true,
    beq_iff_eq] at h1
  simp only [Address.addrEq, Bool.and_eq_true, beq_iff_eq] at h2
  omega

/-- The flag-accumulating pass succeeds iff every pair is classified, and
then computes exactly the two "some pair" flags. -/
theorem adjacencyFlags_eq : ∀ (l : List Address) (hp hs : Bool),
    adjacencyFlags hp hs l =
      if allClassified l then .ok (hp || anyPrior l, hs || anyIdent l)
      else .error "Addresses in SIMD load should be either identical or neighbouring."
  | [], hp, hs => by simp [adjacencyFlags, allClassified, anyPrior, anyIdent]
  | [a], hp, hs => by simp [adjacencyFlags, allClassified, anyPrior, anyIdent]
  | a :: b :: rest, hp, hs => by
    by_cases h1 : priorTo a b = true
    · have ih := adjacencyFlags_eq (b :: rest) true hs
      simp only [adjacencyFlags, h1, if_true, ih, allClassified, anyPrior,
        anyIdent, Bool.or_eq_true]
      by_cases hc : allClassified (b :: rest) = true <;>
        simp [hc, h1, Bool.or_assoc]
    · by_cases h2 : a.addrEq b = true
      · have ih := adjacencyFlags_eq (b :: rest) hp true
        simp only [adjacencyFlags, h1, if_false, h2, if_true, ih,
          allClassified, anyPrior, anyIdent]
        by_cases hc : allClassified (b :: rest) = true <;>
          simp [hc, h1, h2, Bool.or_assoc]
      · simp only [adjacencyFlags, h1, h2, if_false, allClassified]
        have : (priorTo a b || a.addrEq b) = false := by
          simp [Bool.or_eq_true, h1, h2]
        simp [this]

/-- If every pair is classified and none is prior-to, the chunk is an
identical chain. -/
theorem allClassified_chain_ident : ∀ l : List Address,
    allClassified l = true → anyPrior l = false →
    List.Chain' (fun a b => a.addrEq b = true) l
  | [] => by intro _ _; simp
  | [a] => by intro _ _; simp
  | a :: b :: rest => by
    intro hc hp
    simp only [allClassified, Bool.and_eq_true, Bool.or_eq_true] at hc
    simp only [anyPrior, Bool.or_eq_false_iff] at hp
    rw [List.chain'_cons]
    refine ⟨?_, allClassified_chain_ident (b :: rest) hc.2 hp.2⟩
    rcases hc.1 with h | h
    · rw [hp.1] at h
      exact absurd h (by simp)
    · exact h

/-- If every pair is classified and none is identical, the chunk is a
prior-to chain. -/
theorem allClassified_chain_prior : ∀ l : List Address,
    allClassified l = true → anyIdent l = false →
    List.Chain' (fun a b => priorTo a b = true) l
  | [] => by intro _ _; simp
  | [a] => by intro _ _; simp
  | a :: b :: rest => by
    intro hc hi
    simp only [allClassified, Bool.and_eq_true, Bool.or_eq_true] at hc
    simp only [anyIdent, Bool.or_eq_false_iff, Bool.and_eq_false_iff] at hi
    rw [List.chain'_cons]
    refine ⟨?_, allClassified_chain_prior (b :: rest) hc.2 hi.2⟩
    rcases hc.1 with h | h
    · exact h
    · rcases hi.1 with h' | h'
      · simpa using h'
      · rw [h] at h'
        exact absurd h' (by simp)

/-- A prior-to chain is fully classified and contains no identical pair. -/
theorem chain_prior_flags : ∀ l : List Address,
    List.Chain' (fun a b => priorTo a b = true) l →
    allClassified l = true ∧ anyIdent l = false
  | [] => by intro _; simp [allClassified, anyIdent]
  | [a] => by intro _; simp [allClassified, anyIdent]
  | a :: b :: rest => by
    intro h
    rw [List.chain'_cons] at h
    have ih := chain_prior_flags (b :: rest) h.2
    simp [allClassified, anyIdent, h.1, ih.1, ih.2]

/-- An identical chain is fully classified and contains no prior-to
pair (by disjointness of the two relations). -/
theorem chain_ident_flags : ∀ l : List Address,
    List.Chain' (fun a b => a.addrEq b = true) l →
    allClassified l = true ∧ anyPrior l = false
  | [] => by intro _; simp [allClassified, anyPrior]
  | [a] => by intro _; simp [allClassified, anyPrior]
  | a :: b :: rest => by
    intro h
    rw [List.chain'_cons] at h
    have ih := chain_ident_flags (b :: rest) h.2
    have hnp : priorTo a b = false := by
      by_contra hh
      exact priorTo_addrEq_disjoint (by simpa using hh) h.1
    simp [allClassified, anyPrior, h.1, hnp, ih.1, ih.2]

/-- The per-chunk check of the pack-forming pass succeeds exactly when the
chunk is a prior-to chain or an identical chain. -/
theorem chunkCheckOk_iff (l : List Address) :
    chunkCheckOk l = true ↔
      (List.Chain' (fun a b => priorTo a b = true) l ∨
       List.Chain' (fun a b => a.addrEq b = true) l) := by
  unfold chunkCheckOk
  rw [adjacencyFlags_eq]
  by_cases hc : allClassified l = true
  · rw [if_pos hc]
    show ((!((false || anyPrior l) && (false || anyIdent l))) = true) ↔ _
    rw [Bool.false_or, Bool.false_or]
    constructor
    · intro h
      cases hp : anyPrior l with
      | false => exact Or.inr (allClassified_chain_ident l hc hp)
      | true =>
        cases hi : anyIdent l with
        | false => exact Or.inl (allClassified_chain_prior l hc hi)
        | true =>
          rw [hp, hi] at h
          exact absurd h (by decide)
    · intro hh
      rcases hh with h | h
      · rw [(chain_prior_flags l h).2, Bool.and_false]
        rfl
      · rw [(chain_ident_flags l h).2, Bool.false_and]
        rfl
  · rw [if_neg hc]
    refine iff_of_false (fun hh => ?_) (fun hh => ?_)
    · exact absurd hh (by decide)
    · rcases hh with h | h
      · exact hc (chain_prior_flags l h).1
      · exact hc (chain_ident_flags l h).1

/-- The fuel of `chunksOfGo` is irrelevant once it is at least the list
length (for a non-zero chunk size). -/
theorem chunksOfGo_fuel_irrel {α : Type} {gs : Nat} (hgs : gs ≠ 0) :
    ∀ (fuel fuel' : Nat) (l : List α), l.length ≤ fuel → l.length ≤ fuel' →
      chunksOfGo gs fuel l = chunksOfGo gs fuel' l := by
  intro fuel
  induction fuel with
  | zero =>
    intro fuel' l h1 _
    have : l = [] := List.length_eq_zero.mp (Nat.le_zero.mp h1)
    subst this
    cases fuel' <;> rfl
  | succ f ih =>
    intro fuel' l h1 h2
    cases l with
    | nil => cases fuel' <;> rfl
    | cons x xs =>
      cases fuel' with
      | zero => simp at h2
      | succ f' =>
        show (x :: xs).take gs :: chunksOfGo gs f ((x :: xs).drop gs) =
          (x :: xs).take gs :: chunksOfGo gs f' ((x :: xs).drop gs)
        congr 1
        apply ih
        · simp only [List.length_drop, List.length_cons]
          simp only [List.length_cons] at h1
          omega
        · simp only [List.length_drop, List.length_cons]
          simp only [List.length_cons] at h2
          omega

/-- Unfolding equation for `chunksOf` on a non-empty list. -/
theorem chunksOf_cons {α : Type} {gs : Nat} (hgs : gs ≠ 0) (l : List α)
    (hl : l ≠ []) :
    chunksOf gs l = l.take gs :: chunksOf gs (l.drop gs) := by
  unfold chunksOf
  cases l with
  | nil => exact absurd rfl hl
  | cons x xs =>
    show (x :: xs).take gs :: chunksOfGo gs xs.length ((x :: xs).drop gs) = _
    congr 1
    apply chunksOfGo_fuel_irrel hgs
    · simp only [List.length_drop, List.length_cons]
      omega
    · exact Nat.le_refl _

/-!
## Soundness of the recursive vectorizer
-/

@[simp] theorem memoLookup_nil (k : Nat) : memoLookup [] k = none := rfl

/-- Destructuring a successful `Except` bind. -/
theorem except_bind_ok {ε α β : Type} {x : Except ε α} {f : α → Except ε β}
    {b : β} (h : (x >>= f) = .ok b) : ∃ a, x = .ok a ∧ f a = .ok b := by
  cases x with
  | error e => exact absurd h (by simp [Bind.bind, Except.bind])
  | ok a => exact ⟨a, rfl, by simpa [Bind.bind, Except.bind] using h⟩

/-- What a successful recursive `vectorize` call guarantees, when the
`scalar_to_vector` map is empty (as it always is: nothing populates it):
the input node is returned, the map stays empty, the arena only grows,
nodes other than `p` keep their contents, `p` keeps its members and is
marked vectorized, and every node reachable from `p` is vectorized with
exactly as many members as `p` and is `p` itself or freshly allocated. -/
structure VRecOut (st : St) (p q : Nat) (st' : St) : Prop where
  q_eq : q = p
  memo : st'.memo = []
  len : st.nodes.length ≤ st'.nodes.length
  frame : ∀ n, n < st.nodes.length → n ≠ p → getN st' n = getN st n
  members_eq : (getN st' p).members = (getN st p).members
  vec : (getN st' p).isVec = true
  reach : ∀ n, Reach st'.nodes p n →
    (getN st' n).isVec = true ∧
    (getN st' n).members.length = (getN st p).members.length ∧
    (n = p ∨ (st.nodes.length ≤ n ∧ n < st'.nodes.length))

/-- What a successful run of the synthetic-children loop guarantees:
the map stays empty, the arena grows, other nodes are untouched, and `p`
gains a list of fresh child nodes, each rooting a fresh subtree of
vectorized nodes with `L` members each. -/
structure VKidsOut (st : St) (p : Nat) (L : Nat) (st' : St) : Prop where
  memo : st'.memo = []
  len : st.nodes.length ≤ st'.nodes.length
  frame : ∀ n, n < st.nodes.length → n ≠ p → getN st' n = getN st n
  kids : ∃ kids : List Nat,
    getN st' p = { getN st p with ch := (getN st p).ch ++ kids } ∧
    ∀ k ∈ kids, st.nodes.length ≤ k ∧ k < st'.nodes.length ∧
      ∀ n, Reach st'.nodes k n →
        (getN st' n).isVec = true ∧ (getN st' n).members.length = L ∧
        st.nodes.length ≤ n ∧ n < st'.nodes.length

/-- Soundness of the synthetic-children loop, given soundness of the
recursive vectorizer at the next-smaller fuel. -/
theorem vkids_sound (gs ng fuel : Nat)
    (IH : ∀ st p q st', st.memo = [] → p < st.nodes.length →
      (getN st p).ch = [] → vectorizeRec gs ng fuel st p = .ok (q, st') →
      VRecOut st p q st') :
    ∀ (lists : List (List Nat)) (st : St) (p : Nat) (L : Nat) (st' : St),
      st.memo = [] → p < st.nodes.length →
      (∀ l ∈ lists, l.length = L) →
      vectorizeKids (fun s i => vectorizeRec gs ng fuel s i) p st lists =
        .ok st' →
      VKidsOut st p L st' := by
  intro lists
  induction lists with
  | nil =>
    intro st p L st' hm hp _ hrun
    have hst : st' = st := by
      have := hrun
      simp only [vectorizeKids] at this
      exact (Except.ok.inj this).symm
    subst hst
    refine ⟨hm, Nat.le_refl _, fun n _ _ => rfl, [], by simp, by simp⟩
  | cons l rest ihr =>
    intro st p L st' hm hp hL hrun
    simp only [vectorizeKids] at hrun
    obtain ⟨⟨q0, stC⟩, hrec, hrest⟩ := except_bind_ok hrun
    have hcidp : p ≠ st.nodes.length := Nat.ne_of_lt hp
    -- names for the intermediate states
    set cnode : VNode :=
      { ntype := (getN st (l.getD 0 0)).ntype, ch := [], members := l,
        addr := default, isVec := false, varName := none } with hcnode
    set stA : St := pushN st cnode with hstA
    set stB : St := setN stA p { getN stA p with ch := (getN stA p).ch ++ [st.nodes.length] }
      with hstB
    have hlenA : stA.nodes.length = st.nodes.length + 1 := by simp [hstA]
    have hlenB : stB.nodes.length = st.nodes.length + 1 := by simp [hstB, hlenA]
    have hgetBcid : getN stB st.nodes.length = cnode := by
      rw [hstB, getN_setN_ne (Ne.symm hcidp), hstA, getN_pushN_len]
    have O1 : VRecOut stB st.nodes.length q0 stC := by
      refine IH stB st.nodes.length q0 stC ?_ ?_ ?_ hrec
      · simp [hstB, hstA, hm]
      · omega
      · rw [hgetBcid]
    have hlenC : stB.nodes.length ≤ stC.nodes.length := O1.len
    have O2 : VKidsOut stC p L st' := by
      refine ihr stC p L st' O1.memo (by omega) (fun l' hl' => hL l' (by simp [hl'])) hrest
    have hlenD : stC.nodes.length ≤ st'.nodes.length := O2.len
    -- p's node in stC
    have hgetBp : getN stB p = { getN st p with ch := (getN st p).ch ++ [st.nodes.length] } := by
      rw [hstB, getN_setN_self (by omega), hstA, getN_pushN_ne hcidp]
    have hgetCp : getN stC p = { getN st p with ch := (getN st p).ch ++ [st.nodes.length] } := by
      rw [O1.frame p (by omega) hcidp, hgetBp]
    obtain ⟨kids', hkp, hkprops⟩ := O2.kids
    refine ⟨O2.memo, by omega, ?_, st.nodes.length :: kids', ?_, ?_⟩
    · -- frame
      intro n hn hnp
      have h1 : getN st' n = getN stC n := O2.frame n (by omega) hnp
      have h2 : getN stC n = getN stB n :=
        O1.frame n (by omega) (by omega)
      have h3 : getN stB n = getN st n := by
        rw [hstB, getN_setN_ne hnp, hstA, getN_pushN_ne (by omega)]
      rw [h1, h2, h3]
    · -- the node at p in the final state
      rw [hkp, hgetCp]
      simp [List.append_assoc]
    · -- subtree facts for each kid
      intro k hk
      rcases List.mem_cons.mp hk with rfl | hk'
      · -- the freshly created kid of this round
        refine ⟨Nat.le_refl _, by omega, ?_⟩
        have hfix : ∀ m, Reach stC.nodes st.nodes.length m →
            getN st' m = getN stC m := by
          intro m hm'
          rcases (O1.reach m hm').2.2 with rfl | ⟨hm1, hm2⟩
          · exact O2.frame _ (by omega) (Ne.symm hcidp)
          · exact O2.frame _ (by omega) (by omega)
        intro n hn
        have hnC : Reach stC.nodes st.nodes.length n :=
          reach_transfer hfix hn
        have hfacts := O1.reach n hnC
        have hne : n ≠ p := by
          rcases hfacts.2.2 with rfl | ⟨h1, _⟩ <;> omega
        have hlt : n < stC.nodes.length := by
          rcases hfacts.2.2 with rfl | ⟨_, h2⟩ <;> omega
        have heq : getN st' n = getN stC n := O2.frame n hlt hne
        have hLn : (getN stB st.nodes.length).members.length = L := by
          rw [hgetBcid]
          exact hL l (by simp)
        refine ⟨by rw [heq]; exact hfacts.1, by rw [heq, hfacts.2.1]; exact hLn, ?_, ?_⟩
        · rcases hfacts.2.2 with rfl | ⟨h1, _⟩ <;> omega
        · have := O2.len
          rcases hfacts.2.2 with rfl | ⟨_, h2⟩ <;> omega
      · -- kids of the remaining rounds
        obtain ⟨hb1, hb2, hreach⟩ := hkprops k hk'
        refine ⟨by omega, hb2, ?_⟩
        intro n hn
        obtain ⟨h1, h2, h3, h4⟩ := hreach n hn
        exact ⟨h1, h2, by omega, h4⟩

@[simp] theorem any_isSome_memoLookup_nil (l : List Nat) :
    (l.any fun m => (memoLookup [] m).isSome) = false := by
  simp [memoLookup]

/-- Soundness of the recursive vectorizer on an empty memo map: see
`VRecOut`. -/
theorem vrec_sound (gs ng : Nat) : ∀ (fuel : Nat) (st : St) (p q : Nat)
    (st' : St), st.memo = [] → p < st.nodes.length → (getN st p).ch = [] →
    vectorizeRec gs ng fuel st p = .ok (q, st') →
    VRecOut st p q st' := by
  intro fuel
  induction fuel with
  | zero =>
    intro st p q st' _ _ _ h
    exact absurd h (by simp [vectorizeRec])
  | succ fuel IH =>
    intro st p q st' hm hp hch hrun
    simp only [vectorizeRec, setN_memo, hm, memoLookup_nil] at hrun
    split_ifs at hrun with hc0 hc1 hc2 hc3
    obtain ⟨st2, hkids, hfin⟩ := except_bind_ok hrun
    have h2 := Except.ok.inj hfin
    rw [Prod.mk.injEq] at h2
    obtain ⟨hq, hst'⟩ := h2
    subst hst'
    -- soundness of the children loop
    have K : VKidsOut (setN st p { getN st p with isVec := true }) p
        (getN st p).members.length st2 := by
      refine vkids_sound gs ng fuel IH _ _ _ _ _ (by simp [hm])
        (by simpa using hp) ?_ hkids
      intro l hl
      obtain ⟨i, _, rfl⟩ := List.mem_map.mp hl
      simp
    have hget1p : getN (setN st p { getN st p with isVec := true }) p =
        { getN st p with isVec := true } := getN_setN_self hp
    have hlen2 : st.nodes.length ≤ st2.nodes.length := by
      have := K.len
      simpa using this
    obtain ⟨kids, hkp, hkprops⟩ := K.kids
    have hkp' : getN st2 p = { getN st p with isVec := true, ch := kids } := by
      rw [hkp, hget1p]
      show ({ getN st p with isVec := true, ch := (getN st p).ch ++ kids } : VNode) = _
      rw [hch]
      rfl
    have hplt2 : p < st2.nodes.length := by omega
    refine ⟨hq.symm, ?_, ?_, ?_, ?_, ?_, ?_⟩
    · simpa using K.memo
    · simpa using hlen2
    · intro n hn hnp
      rw [getN_setN_ne hnp, K.frame n (by simpa using hn) hnp,
        getN_setN_ne hnp]
    · rw [getN_setN_self hplt2]
      show (getN st2 p).members = _
      rw [hkp']
    · rw [getN_setN_self hplt2]
      show (getN st2 p).isVec = _
      rw [hkp']
    · intro n hr
      have hchfin : (getN st2 p).ch = kids := by rw [hkp']
      rcases reach_elim hr with heq | ⟨c, hc, hcn⟩
      · refine ⟨?_, ?_, Or.inl heq⟩
        · rw [heq, getN_setN_self hplt2]
          show (getN st2 p).isVec = _
          rw [hkp']
        · rw [heq, getN_setN_self hplt2]
          show (getN st2 p).members.length = _
          rw [hkp']
      · have hc' : c ∈ kids := by
          rw [show ∀ (x : St) (a : Nat),
              x.nodes.getD a default = getN x a from fun _ _ => rfl] at hc
          rw [getN_setN_self hplt2] at hc
          revert hc
          show c ∈ (getN st2 p).ch → _
          rw [hchfin]
          exact id
        obtain ⟨hcb1, hcb2, hcreach⟩ := hkprops c hc'
        have hframe' : ∀ m, m ≠ p →
            getN (setN st2 p { getN st2 p with addr :=
              if (getN st2 ((getN st p).members.getD 0 0)).addr.coeff_aosoa_group_size = 0 then
                { (getN st2 ((getN st p).members.getD 0 0)).addr with
                  coeff_aosoa_group_size := (ng : Int),
                  coeff_aosoa_stride := 0 }
              else (getN st2 ((getN st p).members.getD 0 0)).addr }) m =
            getN st2 m := fun m hmp => getN_setN_ne hmp
        have hcn2 : Reach st2.nodes c n := by
          refine reach_transfer ?_ hcn
          intro m hm'
          obtain ⟨_, _, hmb1, _⟩ := hcreach m hm'
          have hmge : st.nodes.length ≤ m := by simpa using hmb1
          exact hframe' m (by omega)
        obtain ⟨hv, hL, hb1, hb2⟩ := hcreach n hcn2
        have hnge : st.nodes.length ≤ n := by simpa using hb1
        have hnp : n ≠ p := by omega
        refine ⟨?_, ?_, Or.inr ⟨?_, ?_⟩⟩
        · rw [getN_setN_ne hnp]
          exact hv
        · rw [getN_setN_ne hnp]
          exact hL
        · simpa using hb1
        · simpa using hb2

/-!
## Soundness of the chunk loop of the top-level vectorizer
-/

/-- Every element of a chunk is an element of the chunked list. -/
theorem chunksOfGo_subset {α : Type} (gs : Nat) : ∀ (fuel : Nat)
    (m c : List α), c ∈ chunksOfGo gs fuel m → ∀ x ∈ c, x ∈ m := by
  intro fuel
  induction fuel with
  | zero =>
    intro m c hc x hx
    cases m with
    | nil => simp [chunksOfGo] at hc
    | cons a as =>
      simp only [chunksOfGo, List.mem_singleton] at hc
      subst hc
      exact hx
  | succ f ih =>
    intro m c hc x hx
    cases m with
    | nil => simp [chunksOfGo] at hc
    | cons a as =>
      simp only [chunksOfGo, List.mem_cons] at hc
      rcases hc with rfl | hc
      · exact List.take_subset _ _ hx
      · exact List.drop_subset _ _ (ih _ c hc x hx)

/-- Every element of a chunk of `chunksOf gs m` is an element of `m`. -/
theorem chunksOf_subset {α : Type} {gs : Nat} {m c : List α}
    (hc : c ∈ chunksOf gs m) : ∀ x ∈ c, x ∈ m :=
  chunksOfGo_subset gs m.length m c hc

/-- The member loop of the chunk-forming pass computes the same flags as
the address-level classification (on a run started at `prev`). -/
theorem buildPackFlags_some_sound (st : St) : ∀ (ids : List Nat) (p : Nat)
    (hp hs : Bool) (r : Bool × Bool),
    buildPackFlags st (some p) hp hs ids = .ok r →
    adjacencyFlags hp hs
      ((getN st p).addr :: ids.map (fun c => (getN st c).addr)) = .ok r := by
  intro ids
  induction ids with
  | nil =>
    intro p hp hs r h
    simp only [buildPackFlags] at h
    simpa [adjacencyFlags] using h
  | cons c rest ih =>
    intro p hp hs r h
    simp only [buildPackFlags] at h
    split_ifs at h with ht h1 h2
    · simpa [adjacencyFlags, h1] using ih c true hs r h
    · simpa [adjacencyFlags, h1, h2] using ih c hp true r h

/-- Entry form of `buildPackFlags_some_sound`, starting with no previous
member. -/
theorem buildPackFlags_none_sound (st : St) (ids : List Nat)
    (hp hs : Bool) (r : Bool × Bool)
    (h : buildPackFlags st none hp hs ids = .ok r) :
    adjacencyFlags hp hs (ids.map (fun c => (getN st c).addr)) = .ok r := by
  cases ids with
  | nil =>
    simp only [buildPackFlags] at h
    simpa [adjacencyFlags] using h
  | cons c rest =>
    simp only [buildPackFlags] at h
    split_ifs at h with ht
    exact buildPackFlags_some_sound st rest c hp hs r h

/-- What a successful run of the chunk loop guarantees: the combine root
`cid` is returned, the map stays empty, nodes other than `cid` are
untouched, `cid` gains one pack child per chunk, each rooting a fresh
subtree of vectorized nodes with `group_size` members, and every chunk of
the store list passed its adjacency check. -/
structure ChunksOut (gs : Nat) (st : St) (cid : Nat) (l : List Nat)
    (st' : St) : Prop where
  memo : st'.memo = []
  len : st.nodes.length ≤ st'.nodes.length
  frame : ∀ n, n < st.nodes.length → n ≠ cid → getN st' n = getN st n
  packs : ∃ packs : List Nat,
    getN st' cid = { getN st cid with ch := (getN st cid).ch ++ packs } ∧
    ∀ k ∈ packs, st.nodes.length ≤ k ∧ k < st'.nodes.length ∧
      ∀ n, Reach st'.nodes k n →
        (getN st' n).isVec = true ∧ (getN st' n).members.length = gs ∧
        st.nodes.length ≤ n ∧ n < st'.nodes.length
  adj : ∀ c ∈ chunksOf gs l,
    chunkCheckOk (c.map (fun i => (getN st i).addr)) = true

/-- Soundness of the chunk loop of the top-level vectorizer. -/
theorem chunks_sound (gs ng : Nat) (hgs : gs ≠ 0) : ∀ (fuel : Nat) (st : St)
    (cid : Nat) (l : List Nat) (q : Nat) (st' : St),
    st.memo = [] → cid < st.nodes.length →
    (∀ i ∈ l, i < cid) → l.length % gs = 0 →
    processChunks gs ng fuel st cid l = .ok (q, st') →
    q = cid ∧ ChunksOut gs st cid l st' := by
  intro fuel
  induction fuel with
  | zero =>
    intro st cid l q st' _ _ _ _ h
    exact absurd h (by simp [processChunks])
  | succ fuel ih =>
    intro st cid l q st' hm hcid hval hmod hrun
    cases l with
    | nil =>
      simp only [processChunks] at hrun
      obtain ⟨hq, hst⟩ := Prod.mk.injEq .. |>.mp (Except.ok.inj hrun)
      subst hst
      refine ⟨hq.symm, hm, Nat.le_refl _, fun n _ _ => rfl, ⟨[], by simp, by simp⟩, ?_⟩
      intro c hc
      simp [chunksOf, chunksOfGo] at hc
    | cons a as =>
      simp only [processChunks] at hrun
      obtain ⟨⟨hp0, hs0⟩, hflags, hrun1⟩ := except_bind_ok hrun
      split_ifs at hrun1 with hmix
      obtain ⟨⟨q0, stB⟩, hrec, hrun2⟩ := except_bind_ok hrun1
      have O1 := vrec_sound gs ng fuel _ st.nodes.length q0 stB
        (by simpa using hm) (by simp only [pushN_length]; omega)
        (by rw [getN_pushN_len]) hrec
      have hq0 : q0 = st.nodes.length := O1.q_eq
      have hchunklen : ((a :: as).take gs).length = gs := by
        simp only [List.length_take]
        have : gs ≤ (a :: as).length := by
          by_contra hh
          push_neg at hh
          rw [Nat.mod_eq_of_lt hh] at hmod
          simp at hmod
        omega
      have hlenB : st.nodes.length + 1 ≤ stB.nodes.length := by
        have := O1.len
        simpa using this
      have hmod' : ((a :: as).drop gs).length % gs = 0 := by
        have hdvd : gs ∣ (a :: as).length := Nat.dvd_of_mod_eq_zero hmod
        have hdvd2 : gs ∣ ((a :: as).length - gs) :=
          Nat.dvd_sub' hdvd dvd_rfl
        rw [List.length_drop]
        exact Nat.mod_eq_zero_of_dvd hdvd2
      obtain ⟨hq, O2⟩ := ih _ cid _ q st' (by simpa using O1.memo)
        (by simp only [setN_length]; omega)
        (fun i hi => hval i (List.drop_subset _ _ hi)) hmod' hrun2
      have hlenC : stB.nodes.length ≤
          (setN stB cid { getN stB cid with
            ch := (getN stB cid).ch ++ [q0] }).nodes.length := by
        simp
      have hlenD := O2.len
      have hlenE := O2.memo
      -- node lookups
      have hgetBcid : getN stB cid = getN st cid := by
        rw [O1.frame cid (by simp only [pushN_length]; omega) (by omega),
          getN_pushN_ne (by omega)]
      have hgetCcid : getN (setN stB cid { getN stB cid with
          ch := (getN stB cid).ch ++ [q0] }) cid =
          { getN st cid with ch := (getN st cid).ch ++ [q0] } := by
        rw [getN_setN_self (by omega : cid < stB.nodes.length), hgetBcid]
      -- frames from the intermediate states back to st
      have hframeB : ∀ n, n < st.nodes.length → n ≠ cid →
          getN stB n = getN st n := by
        intro n hn _
        rw [O1.frame n (by simp only [pushN_length]; omega) (by omega),
          getN_pushN_ne (by omega)]
      have hframeC : ∀ n, n < st.nodes.length → n ≠ cid →
          getN (setN stB cid { getN stB cid with
            ch := (getN stB cid).ch ++ [q0] }) n = getN st n := by
        intro n hn hnc
        rw [getN_setN_ne hnc, hframeB n hn hnc]
      refine ⟨hq, ?_, ?_, ?_, ?_, ?_⟩
      · exact O2.memo
      · simp only [setN_length] at hlenD
        omega
      · intro n hn hnc
        rw [O2.frame n (by simp only [setN_length]; omega) hnc,
          hframeC n hn hnc]
      · obtain ⟨packs', hpk, hpkprops⟩ := O2.packs
        refine ⟨q0 :: packs', ?_, ?_⟩
        · rw [hpk, hgetCcid]
          simp [List.append_assoc]
        · intro k hk
          rcases List.mem_cons.mp hk with rfl | hk'
          · -- the pack of this chunk
            subst hq0
            refine ⟨Nat.le_refl _, by simp only [setN_length] at hlenD; omega, ?_⟩
            have hfix : ∀ m, Reach stB.nodes st.nodes.length m →
                getN st' m = getN stB m := by
              intro m hm'
              have hfacts := O1.reach m hm'
              have hmge : st.nodes.length ≤ m := by
                rcases hfacts.2.2 with rfl | ⟨h1, _⟩
                · exact Nat.le_refl _
                · simp only [pushN_length] at h1
                  omega
              have hmlt : m < stB.nodes.length := by
                rcases hfacts.2.2 with rfl | ⟨_, h2⟩
                · omega
                · exact h2
              rw [O2.frame m (by simp only [setN_length]; omega) (by omega),
                getN_setN_ne (by omega)]
            intro n hn
            have hnB : Reach stB.nodes st.nodes.length n :=
              reach_transfer hfix hn
            have hfacts := O1.reach n hnB
            have hnge : st.nodes.length ≤ n := by
              rcases hfacts.2.2 with rfl | ⟨h1, _⟩
              · exact Nat.le_refl _
              · simp only [pushN_length] at h1
                omega
            have hnlt : n < stB.nodes.length := by
              rcases hfacts.2.2 with rfl | ⟨_, h2⟩
              · omega
              · exact h2
            have heq : getN st' n = getN stB n := hfix n hnB
            refine ⟨by rw [heq]; exact hfacts.1, ?_, hnge, ?_⟩
            · rw [heq, hfacts.2.1, getN_pushN_len]
              exact hchunklen
            · simp only [setN_length] at hlenD
              omega
          · obtain ⟨hb1, hb2, hreach⟩ := hpkprops k hk'
            simp only [setN_length] at hb1
            refine ⟨by omega, hb2, ?_⟩
            intro n hn
            obtain ⟨h1, h2, h3, h4⟩ := hreach n hn
            simp only [setN_length] at h3
            exact ⟨h1, h2, by omega, h4⟩
      · intro c hc
        rw [chunksOf_cons hgs _ (by simp)] at hc
        rcases List.mem_cons.mp hc with rfl | hc'
        · -- this chunk: from the member-loop flags
          have hadj := buildPackFlags_none_sound _ _ _ _ _ hflags
          have hmapeq : ((a :: as).take gs).map
              (fun i => (getN (pushN st
                { ntype := .store, ch := [], members := (a :: as).take gs,
                  addr := default, isVec := true,
                  varName := none }) i).addr) =
              ((a :: as).take gs).map (fun i => (getN st i).addr) := by
            apply List.map_congr_left
            intro i hi
            have : i < cid := hval i (List.take_subset _ _ hi)
            rw [getN_pushN_ne (by omega)]
          rw [hmapeq] at hadj
          unfold chunkCheckOk
          rw [hadj]
          show (!(hp0 && hs0)) = true
          cases hp0 <;> cases hs0 <;> simp_all
        · have := O2.adj c hc'
          have hmapeq : c.map (fun i => (getN (setN stB cid
              { getN stB cid with ch := (getN stB cid).ch ++ [q0] }) i).addr) =
              c.map (fun i => (getN st i).addr) := by
            apply List.map_congr_left
            intro i hi
            have hil : i < cid :=
              hval i (List.drop_subset _ _ (chunksOf_subset hc' i hi))
            rw [getN_setN_ne (by omega), hframeB i (by omega) (by omega)]
          rwa [hmapeq] at this

/-- Chunking commutes with mapping. -/
theorem chunksOf_map {α β : Type} (gs : Nat) (f : α → β) (l : List α) :
    chunksOf gs (l.map f) = (chunksOf gs l).map (List.map f) := by
  have go : ∀ (fuel : Nat) (m : List α),
      chunksOfGo gs fuel (m.map f) = (chunksOfGo gs fuel m).map (List.map f) := by
    intro fuel
    induction fuel with
    | zero =>
      intro m
      cases m <;> simp [chunksOfGo]
    | succ fu ih =>
      intro m
      cases m with
      | nil => simp [chunksOfGo]
      | cons x xs =>
        simp only [List.map_cons, chunksOfGo]
        rw [← List.map_cons f x xs, ← List.map_drop, ih ((x :: xs).drop gs)]
        simp [List.map_take]
  unfold chunksOf
  rw [List.length_map]
  exact go l.length l

/-!
## Soundness of the code emitter's visiting and naming discipline
-/

/-- The naming invariant maintained by `code_gen`: the variable counter
counts the named nodes, stays within the asserted cap, the node named in
round `k` carries counter `k`, and every named node is recorded in the
naming order. -/
structure WellNamed (st : St) : Prop where
  count_eq : st.varCount = st.order.length
  count_le : st.varCount ≤ 10000
  order_names : ∀ k n, st.order.get? k = some n →
    (getN st n).varName = some k
  named_mem : ∀ n, (getN st n).varName.isSome = true → n ∈ st.order

/-- In a well-named state the naming order has no duplicates. -/
theorem WellNamed.nodup {st : St} (W : WellNamed st) : st.order.Nodup := by
  rw [List.nodup_iff_injective_get]
  intro i j hij
  have hi := W.order_names i.1 (st.order.get i) (List.get?_eq_get i.2)
  have hj := W.order_names j.1 (st.order.get j) (List.get?_eq_get j.2)
  rw [hij] at hi
  rw [hi] at hj
  exact Fin.ext (Option.some.inj hj)

/-- The naming invariant only depends on the arena, the order and the
counter. -/
theorem wellNamed_congr {s t : St} (h1 : s.nodes = t.nodes)
    (h2 : s.order = t.order) (h3 : s.varCount = t.varCount)
    (W : WellNamed s) : WellNamed t := by
  have hget : ∀ n, getN t n = getN s n := by
    intro n
    unfold getN
    rw [h1]
  constructor
  · rw [← h3, ← h2]
    exact W.count_eq
  · rw [← h3]
    exact W.count_le
  · intro k n hn
    rw [hget]
    exact W.order_names k n (by rw [h2]; exact hn)
  · intro n hn
    rw [← h2]
    exact W.named_mem n (by rw [← hget]; exact hn)

/-- Decimal digits render injectively. -/
theorem digitCh_inj : ∀ a < 10, ∀ b < 10, digitCh a = digitCh b → a = b := by
  decide

/-- `var_{:04d}` names are pairwise distinct below the counter cap. -/
theorem varNameStr_inj {a b : Nat} (ha : a < 10000) (hb : b < 10000)
    (h : varNameStr a = varNameStr b) : a = b := by
  unfold varNameStr pad4 at h
  rw [if_pos ha, if_pos hb] at h
  have hdata := congrArg String.data h
  simp only [String.data_append] at hdata
  have hlist : [digitCh (a / 1000 % 10), digitCh (a / 100 % 10),
      digitCh (a / 10 % 10), digitCh (a % 10)] =
      [digitCh (b / 1000 % 10), digitCh (b / 100 % 10),
       digitCh (b / 10 % 10), digitCh (b % 10)] :=
    List.append_cancel_left hdata
  simp only [List.cons.injEq, and_true] at hlist
  obtain ⟨h3, h2, h1, h0⟩ := hlist
  have e3 := digitCh_inj _ (Nat.mod_lt _ (by omega)) _
    (Nat.mod_lt _ (by omega)) h3
  have e2 := digitCh_inj _ (Nat.mod_lt _ (by omega)) _
    (Nat.mod_lt _ (by omega)) h2
  have e1 := digitCh_inj _ (Nat.mod_lt _ (by omega)) _
    (Nat.mod_lt _ (by omega)) h1
  have e0 := digitCh_inj _ (Nat.mod_lt _ (by omega)) _
    (Nat.mod_lt _ (by omega)) h0
  omega

/-- `create_variable` succeeds exactly below the cap, returning the
current counter. -/
theorem createVariable_spec {st : St} {v : Nat} {st2 : St}
    (h : createVariable st = .ok (v, st2)) :
    v = st.varCount ∧ st.varCount < 10000 ∧
      st2 = { st with varCount := st.varCount + 1 } := by
  unfold createVariable at h
  split_ifs at h with hcap
  obtain ⟨hv, hst⟩ := Prod.mk.injEq .. |>.mp (Except.ok.inj h)
  exact ⟨hv.symm, hcap, hst.symm⟩

/-- Per-node emission only appends source lines: the arena, the memo map,
the variable counter and the naming order are untouched. -/
theorem emitNode_spec {gs ng simd : Nat} {st : St} {e : Nat} {st' : St}
    (h : emitNode gs ng simd st e = .ok st') :
    st'.nodes = st.nodes ∧ st'.varCount = st.varCount ∧
      st'.order = st.order := by
  simp only [emitNode] at h
  split_ifs at h
  all_goals first
    | · obtain ⟨le, _, hfin⟩ := except_bind_ok h
        obtain rfl := (Except.ok.inj hfin).symm
        exact ⟨rfl, rfl, rfl⟩
    | · obtain rfl := (Except.ok.inj h).symm
        exact ⟨rfl, rfl, rfl⟩

/-- Naming one unnamed node preserves the naming invariant. -/
theorem wellNamed_name_step {st1 : St} (W : WellNamed st1) {e : Nat}
    (he : e < st1.nodes.length) (hnone : (getN st1 e).varName = none)
    (hcap : st1.varCount < 10000) :
    WellNamed { (setN { st1 with varCount := st1.varCount + 1 } e
      { getN st1 e with varName := some st1.varCount }) with
        order := st1.order ++ [e] } := by
  constructor
  · show st1.varCount + 1 = (st1.order ++ [e]).length
    simp [W.count_eq]
  · show st1.varCount + 1 ≤ 10000
    omega
  · intro k n hn
    rcases Nat.lt_or_ge k st1.order.length with hk' | hk'
    · rw [List.get?_append hk'] at hn
      have hsome := W.order_names k n hn
      have hne : n ≠ e := by
        intro hh
        rw [hh, hnone] at hsome
        exact Option.noConfusion hsome
      show (getN (setN { st1 with varCount := st1.varCount + 1 } e
        { getN st1 e with varName := some st1.varCount }) n).varName = some k
      rw [getN_setN_ne hne]
      exact hsome
    · rcases Nat.lt_or_ge k (st1.order.length + 1) with hk2 | hk2
      · have hke : k = st1.order.length := by omega
        subst hke
        rw [List.get?_concat_length] at hn
        rw [(Option.some.inj hn).symm]
        show (getN (setN { st1 with varCount := st1.varCount + 1 } e
          { getN st1 e with varName := some st1.varCount }) e).varName = _
        rw [getN_setN_self (by simpa using he)]
        show some st1.varCount = _
        rw [W.count_eq]
      · rw [List.get?_eq_none.mpr (by simp; omega)] at hn
        exact Option.noConfusion hn
  · intro n hn
    rcases eq_or_ne n e with rfl | hne
    · simp
    · show n ∈ st1.order ++ [e]
      have : (getN st1 n).varName.isSome = true := by
        have := hn
        rw [show getN { (setN { st1 with varCount := st1.varCount + 1 } e
          { getN st1 e with varName := some st1.varCount }) with
            order := st1.order ++ [e] } n =
          getN (setN { st1 with varCount := st1.varCount + 1 } e
          { getN st1 e with varName := some st1.varCount }) n from rfl,
          getN_setN_ne hne] at this
        exact this
      exact List.mem_append_left _ (W.named_mem n this)

/-- Reachability only depends on the child lists of the arena. -/
theorem reach_of_ch_eq {ns1 ns2 : List VNode} {a n : Nat}
    (hch : ∀ m, (ns2.getD m default).ch = (ns1.getD m default).ch) :
    Reach ns1 a n → Reach ns2 a n := by
  intro h
  induction h with
  | refl => exact .refl _
  | tail _ hc ih => exact .tail ih (by rw [hch]; exact hc)

/-- What a successful `code_gen` call guarantees: the naming invariant is
preserved, the arena keeps its size and child structure, already-named
nodes keep their names, and the visited node — together with everything
reachable from it — ends up named. -/
structure CGOut (st : St) (e : Nat) (st' : St) : Prop where
  wn : WellNamed st'
  len : st'.nodes.length = st.nodes.length
  ch_eq : ∀ n, (getN st' n).ch = (getN st n).ch
  named_mono : ∀ n k, (getN st n).varName = some k →
    (getN st' n).varName = some k
  named_e : (getN st' e).varName.isSome = true
  reach_named : ∀ n, Reach st.nodes e n →
    (getN st' n).varName.isSome = true

/-- What a successful run of the child loop guarantees. -/
structure CGKidsOut (st : St) (l : List Nat) (st' : St) : Prop where
  wn : WellNamed st'
  len : st'.nodes.length = st.nodes.length
  ch_eq : ∀ n, (getN st' n).ch = (getN st n).ch
  named_mono : ∀ n k, (getN st n).varName = some k →
    (getN st' n).varName = some k
  kids_named : ∀ c ∈ l, (getN st' c).varName.isSome = true ∧
    ∀ n, Reach st.nodes c n → (getN st' n).varName.isSome = true

/-- Soundness of the child loop of `code_gen`, given soundness of
`code_gen` at the next-smaller fuel. -/
theorem cgkids_sound (gs ng simd fuel : Nat)
    (IH : ∀ st e st', WellNamed st →
      codeGenRec gs ng simd fuel st e = .ok st' → CGOut st e st') :
    ∀ (l : List Nat) (st st' : St), WellNamed st →
      codeGenKids (fun s i => codeGenRec gs ng simd fuel s i) st l = .ok st' →
      CGKidsOut st l st' := by
  intro l
  induction l with
  | nil =>
    intro st st' W h
    have h' := h
    simp only [codeGenKids] at h'
    obtain rfl := (Except.ok.inj h').symm
    exact ⟨W, rfl, fun _ => rfl, fun _ _ hk => hk, by simp⟩
  | cons c cs ih =>
    intro st st' W h
    simp only [codeGenKids] at h
    obtain ⟨st1, hrec, hrest⟩ := except_bind_ok h
    have O1 : CGOut st c st1 := IH st c st1 W hrec
    have O2 : CGKidsOut st1 cs st' := ih st1 st' O1.wn hrest
    refine ⟨O2.wn, by rw [O2.len, O1.len],
      fun n => by rw [O2.ch_eq, O1.ch_eq],
      fun n k hk => O2.named_mono n k (O1.named_mono n k hk), ?_⟩
    intro d hd
    rcases List.mem_cons.mp hd with rfl | hcs
    · constructor
      · obtain ⟨k, hk⟩ := Option.isSome_iff_exists.mp O1.named_e
        exact Option.isSome_iff_exists.mpr ⟨k, O2.named_mono _ k hk⟩
      · intro n hn
        obtain ⟨k, hk⟩ := Option.isSome_iff_exists.mp (O1.reach_named n hn)
        exact Option.isSome_iff_exists.mpr ⟨k, O2.named_mono n k hk⟩
    · obtain ⟨h1, h2⟩ := O2.kids_named d hcs
      exact ⟨h1, fun n hn => h2 n (reach_of_ch_eq O1.ch_eq hn)⟩

/-- Soundness of the visiting and naming discipline of `code_gen`. -/
theorem cg_sound (gs ng simd : Nat) : ∀ (fuel : Nat) (st : St) (e : Nat)
    (st' : St), WellNamed st →
    codeGenRec gs ng simd fuel st e = .ok st' → CGOut st e st' := by
  intro fuel
  induction fuel with
  | zero =>
    intro st e st' _ h
    exact absurd h (by simp [codeGenRec])
  | succ fuel IH =>
    intro st e st' W hrun
    simp only [codeGenRec] at hrun
    split_ifs at hrun with hv hm
    have helt : e < st.nodes.length := by
      by_contra hge
      push_neg at hge
      rw [getN_oob hge] at hv
      exact hv rfl
    obtain ⟨st1, hkids, hrest⟩ := except_bind_ok hrun
    have K : CGKidsOut st (getN st e).ch st1 :=
      cgkids_sound gs ng simd fuel IH _ st st1 W hkids
    cases hvn : (getN st1 e).varName with
    | some k =>
      rw [hvn] at hrest
      obtain rfl := (Except.ok.inj hrest).symm
      refine ⟨K.wn, K.len, K.ch_eq, K.named_mono, by simp [hvn], ?_⟩
      intro n hn
      rcases reach_elim hn with heq | ⟨c, hc, hcn⟩
      · rw [heq]
        simp [hvn]
      · exact (K.kids_named c hc).2 n hcn
    | none =>
      rw [hvn] at hrest
      obtain ⟨⟨v, st2⟩, hcv, hrest2⟩ := except_bind_ok hrest
      obtain ⟨hveq, hcap, hst2⟩ := createVariable_spec hcv
      subst hveq
      subst hst2
      obtain ⟨hn1, hn2, hn3⟩ := emitNode_spec hrest2
      have helt1 : e < st1.nodes.length := by
        rw [K.len]
        exact helt
      have W3 := wellNamed_name_step K.wn helt1 hvn hcap
      have hgetEq : ∀ n, getN st' n =
          getN (setN { st1 with varCount := st1.varCount + 1 } e
            { getN st1 e with varName := some st1.varCount }) n := by
        intro n
        unfold getN
        rw [hn1]
        rfl
      have W' : WellNamed st' := by
        refine wellNamed_congr ?_ ?_ ?_ W3
        · exact hn1.symm
        · exact hn3.symm
        · exact hn2.symm
      have hname_e : (getN st' e).varName = some st1.varCount := by
        rw [hgetEq, getN_setN_self (by simpa using helt1)]
      refine ⟨W', ?_, ?_, ?_, ?_, ?_⟩
      · -- length
        have : st'.nodes.length =
            (setN { st1 with varCount := st1.varCount + 1 } e
              { getN st1 e with varName := some st1.varCount }).nodes.length := by
          rw [hn1]
          rfl
        rw [this]
        simp only [setN_length]
        show st1.nodes.length = st.nodes.length
        exact K.len
      · -- child structure
        intro n
        rw [hgetEq]
        rcases eq_or_ne n e with rfl | hne
        · rw [getN_setN_self (by simpa using helt1)]
          show (getN st1 n).ch = _
          rw [K.ch_eq]
        · rw [getN_setN_ne hne]
          show (getN st1 n).ch = _
          rw [K.ch_eq]
      · -- named monotonicity
        intro n k hk
        have h1 := K.named_mono n k hk
        rw [hgetEq]
        by_cases hne : n = e
        · rw [hne] at h1
          rw [h1] at hvn
          exact Option.noConfusion hvn
        · rw [getN_setN_ne hne]
          exact h1
      · -- the node itself is named
        rw [hname_e]
        rfl
      · -- everything reachable is named
        intro n hn
        rcases reach_elim hn with heq | ⟨c, hc, hcn⟩
        · rw [heq, hname_e]
          rfl
        · obtain ⟨k, hk⟩ :=
            Option.isSome_iff_exists.mp ((K.kids_named c hc).2 n hcn)
          rw [hgetEq]
          by_cases hne : n = e
          · rw [hne, getN_setN_self (by simpa using helt1)]
            rfl
          · rw [getN_setN_ne hne]
            show ((getN st1 n).varName).isSome = true
            rw [hk]
            rfl

/-- A fully general AOSOA address for exercising `eval`. -/
def c1Addr : Address :=
  { stream_id := 0, coeff_i := 2, coeff_imax := 3, coeff_const := 5,
    coeff_aosoa_group_size := 4, coeff_aosoa_stride := 7 }

/-- A vectorized-load address whose constant offset is misaligned
(`coeff_const = 1`, `simd_width = 8`) with `group_size = 1`
(`num_groups = 8 = coeff_aosoa_group_size`). -/
def c3Addr : Address :=
  { stream_id := 0, coeff_i := 1, coeff_imax := 0, coeff_const := 1,
    coeff_aosoa_group_size := 8, coeff_aosoa_stride := 0 }

/-- A family of member addresses (constant offset `c`) for the
`group_size = 2` load patterns (`num_groups = 4 = coeff_aosoa_group_size`). -/
def c3Pair (c : Int) : Address :=
  { stream_id := 0, coeff_i := 2, coeff_imax := 0, coeff_const := c,
    coeff_aosoa_group_size := 4, coeff_aosoa_stride := 0 }

/-- Address pair on which `operator==` is not symmetric: they differ only
in `coeff_aosoa_stride` (5 versus 7) with `coeff_aosoa_group_size = 5`. -/
def c10AddrA : Address :=
  { stream_id := 0, coeff_i := 1, coeff_imax := 2, coeff_const := 3,
    coeff_aosoa_group_size := 5, coeff_aosoa_stride := 5 }

/-- See `c10AddrA`. -/
def c10AddrB : Address :=
  { stream_id := 0, coeff_i := 1, coeff_imax := 2, coeff_const := 3,
    coeff_aosoa_group_size := 5, coeff_aosoa_stride := 7 }

/-- An address for the AOSOA branch of `get_vectorized_address`. -/
def c6Addr : Address :=
  { stream_id := 2, coeff_i := 1, coeff_imax := 3, coeff_const := 5,
    coeff_aosoa_group_size := 2, coeff_aosoa_stride := 4 }

/-- A valid load address (stream 1). -/
def c8Addr : Address :=
  { stream_id := 1, coeff_i := 1, coeff_imax := 0, coeff_const := 0,
    coeff_aosoa_group_size := 0, coeff_aosoa_stride := 0 }

/-- An ungrouped scalar load at constant offset 0 for the SLP scan. -/
def slpLoadInst : VNode :=
  { ntype := .load, ch := [], members := [],
    addr := { stream_id := 0, coeff_i := 1, coeff_imax := 0, coeff_const := 0,
              coeff_aosoa_group_size := 0, coeff_aosoa_stride := 0 },
    isVec := false, varName := none }

/-- A scalar store whose address is same-type with `slpLoadInst` at
constant offset 1, hence prior-to related to it. -/
def slpStoreInst : VNode :=
  { ntype := .store, ch := [], members := [],
    addr := { stream_id := 0, coeff_i := 1, coeff_imax := 0, coeff_const := 1,
              coeff_aosoa_group_size := 0, coeff_aosoa_stride := 0 },
    isVec := false, varName := none }

/-!
## C1: the evaluation contract of `Address::eval`
-/

/-- C1: for every initialized address and all integer indices,
`Address::eval(a, i, n)` returns
`coeff_i·i + coeff_imax·n + coeff_const`, plus
`(i / coeff_aosoa_group_size) · coeff_aosoa_stride` (truncating division)
exactly when `coeff_aosoa_stride ≠ 0`. -/
theorem c1_eval_closed_form (a : Address) (i n : Int)
    (_h : a.initialized = true) :
    a.eval i n =
      a.coeff_i * i + a.coeff_imax * n + a.coeff_const +
        (if a.coeff_aosoa_stride ≠ 0 then
          Int.tdiv i a.coeff_aosoa_group_size * a.coeff_aosoa_stride
        else 0) := by
  unfold Address.eval
  split_ifs with hc
  · rfl
  · exact (add_zero _).symm

/-- Witness for C1 at the concrete address `c1Addr` and indices `(9, 11)`:
`2·9 + 3·11 + 5 + (9 / 4)·7 = 70`. -/
theorem c1_eval_closed_form_witness :
    c1Addr.initialized = true ∧ c1Addr.eval 9 11 = 70 := by
  refine ⟨by decide, ?_⟩
  rw [c1_eval_closed_form c1Addr 9 11 (by decide)]
  decide

/-!
## C3: the vectorized-load emission table and the `needs_shuffle` flag
-/

/-- C3 (code bug): on the failing input — `group_size = 1`,
`simd_width = 8`, a load whose constant offset 1 is not a multiple of the
SIMD width — emission succeeds, aligns the offset down to 0, emits a plain
copy, and finishes with `needs_shuffle` still `true`: the flag is *not*
cleared for `group_size = 1`, contradicting the claim (the
`TC_ASSERT(needs_shuffle == false)` only guards the `group_size > 1`
branch). The remaining conjuncts check the parts of the claim the code
does satisfy: the `(0,1)`/`(0,0)`/`(1,0)` pattern table for
`group_size = 2` (where the flag is always false on success), and the
rejection of other patterns and of `group_size > 2`. -/
theorem c3_needs_shuffle_not_cleared :
    codeGenLoadVec 8 1 8 "var_0000" c3Addr [c3Addr] =
      .ok { lines :=
              ["auto var_0000_immediate = _mm256_load_ps(&stream00[0 * n + 8 * g + 0]\n);\n",
               "auto var_0000 = var_0000_immediate;\n"],
            alignedConst := 0, pattern := .copy, needsShuffle := true } ∧
    (codeGenLoadVec 8 2 4 "v" (c3Pair 0) [c3Pair 0, c3Pair 1]).toOption.map
        (fun l => (l.pattern, l.needsShuffle)) = some (.copy, false) ∧
    (codeGenLoadVec 8 2 4 "v" (c3Pair 0) [c3Pair 0, c3Pair 0]).toOption.map
        (fun l => (l.pattern, l.needsShuffle)) = some (.shuffle "0xA0", false) ∧
    (codeGenLoadVec 8 2 4 "v" (c3Pair 1) [c3Pair 1, c3Pair 1]).toOption.map
        (fun l => (l.pattern, l.needsShuffle)) = some (.shuffle "0xF5", false) ∧
    (codeGenLoadVec 8 2 4 "v" (c3Pair 0) [c3Pair 0, c3Pair 2]).toOption = none ∧
    (codeGenLoadVec 8 3 4 "v" (c3Pair 0) [c3Pair 0, c3Pair 1]).toOption = none := by
  exact ⟨rfl, rfl, rfl, rfl, rfl, rfl⟩

/-!
## C6: the emitted address expression
-/

/-- C6: for every address with non-zero `coeff_aosoa_group_size`, the
emitted address expression is
`&stream{s}[coeff_imax * n + stride * g + coeff_const]` with
`stride = coeff_i * num_groups + (group_size / coeff_aosoa_group_size) * coeff_aosoa_stride`
(truncating integer division, division binding before the product) and `s`
the zero-padded two-digit stream id. -/
theorem c6_vectorized_address (gs ng : Nat) (addr : Address)
    (_h : addr.coeff_aosoa_group_size ≠ 0) :
    getVectorizedAddress gs ng addr =
      "&stream" ++ pad2 addr.stream_id ++ "[" ++ toString addr.coeff_imax ++
        " * n + " ++
        toString (addr.coeff_i * (ng : Int) +
          (Int.tdiv (gs : Int) addr.coeff_aosoa_group_size) *
            addr.coeff_aosoa_stride) ++
        " * g + " ++ toString addr.coeff_const ++ "]\n" := by
  simp only [getVectorizedAddress]
  rw [show ("&" ++ ("stream" ++ pad2 addr.stream_id) : String) =
    "&stream" ++ pad2 addr.stream_id from (String.append_assoc _ _ _).symm]

/-- Witness for C6 at `c6Addr` with `group_size = 2`, `num_groups = 4`:
stream id 2 prints as `02` and the stride is `1·4 + (2/2)·4 = 8`. -/
theorem c6_vectorized_address_witness :
    getVectorizedAddress 2 4 c6Addr = "&stream02[3 * n + 8 * g + 5]\n" := by
  rw [c6_vectorized_address 2 4 c6Addr (by decide)]
  rfl

/-!
## C7: what `continuous_loads` appends
-/

/-- C7 (code bug): with `inst = [load@offset 0, store@offset 1]` (same-type
addresses) and nothing grouped, `continuous_loads(0)` returns `[0, 1]`:
the appended index 1 is ungrouped and prior-to related to the current run
end, but it is a `store`, not a load — the candidate filter re-checks
`inst[i]->type` (the already-selected run end) instead of
`inst[j]->type`. -/
theorem c7_continuous_loads_appends_store :
    continuousLoads [slpLoadInst, slpStoreInst] [false, false] 0 = [0, 1] ∧
    (List.getD [slpLoadInst, slpStoreInst] 1 default).ntype = NType.store ∧
    priorTo (List.getD [slpLoadInst, slpStoreInst] 0 default).addr
      (List.getD [slpLoadInst, slpStoreInst] 1 default).addr = true ∧
    List.getD [false, false] 1 false = false := by
  exact ⟨rfl, rfl, rfl, rfl⟩

/-!
## C8: the checks of the `load` factory
-/

/-- C8: `load(addr)` fails exactly when the address is uninitialized
(`stream_id = -1`) or the stream id lies outside `[0, 3)`; on every other
address it returns a childless load node carrying exactly that address. -/
theorem c8_load_factory_checks (addr : Address) :
    (exOk (loadFactory addr) = false ↔
      (addr.stream_id = -1 ∨ ¬(0 ≤ addr.stream_id ∧ addr.stream_id < 3))) ∧
    (addr.stream_id ≠ -1 → 0 ≤ addr.stream_id → addr.stream_id < 3 →
      loadFactory addr =
        .ok { ntype := .load, ch := [], members := [], addr := addr,
              isVec := false, varName := none }) := by
  constructor
  · unfold loadFactory
    rcases eq_or_ne addr.stream_id (-1) with hs | hs
    · have h1 : addr.initialized = false := by simp [Address.initialized, hs]
      rw [if_pos h1]
      simp [exOk, hs]
    · have h1 : ¬(addr.initialized = false) := by
        simp [Address.initialized, hs]
      rw [if_neg h1]
      by_cases h2 : 0 ≤ addr.stream_id ∧ addr.stream_id < 3
      · rw [if_neg (not_not_intro h2)]
        simp [exOk, hs, h2]
      · rw [if_pos h2]
        simp [exOk, h2]
  · intro h1 h2 h3
    unfold loadFactory
    have hi : ¬(addr.initialized = false) := by
      simp [Address.initialized, h1]
    rw [if_neg hi, if_neg (not_not_intro ⟨h2, h3⟩)]

/-- Witness for C8 at the concrete valid address `c8Addr` (stream 1), and
at the two failing kinds of address (the default-constructed sentinel
address, and stream id 3). -/
theorem c8_load_factory_checks_witness :
    loadFactory c8Addr =
      .ok { ntype := .load, ch := [], members := [], addr := c8Addr,
            isVec := false, varName := none } ∧
    exOk (loadFactory (default : Address)) = false ∧
    exOk (loadFactory { c8Addr with stream_id := 3 }) = false := by
  refine ⟨c8_load_factory_checks c8Addr |>.2 (by decide) (by decide) (by decide),
    ?_, ?_⟩
  · exact (c8_load_factory_checks default).1.mpr (Or.inl rfl)
  · exact (c8_load_factory_checks _).1.mpr (Or.inr (by decide))

/-!
## C10: the exact relation computed by `Address::operator==`
-/

/-- C10: `operator==` agrees on `stream_id`, `coeff_i`, `coeff_imax`,
`coeff_const` and `coeff_aosoa_group_size`, but its last conjunct compares
the left operand's `coeff_aosoa_stride` with the right operand's
`coeff_aosoa_group_size`; the two stride fields are never compared, the
relation is not symmetric, and two addresses differing only in
`coeff_aosoa_stride` can compare equal. -/
theorem c10_operator_eq_characterization :
    (∀ a o : Address, a.addrEq o = true ↔
      (a.stream_id = o.stream_id ∧ a.coeff_i = o.coeff_i ∧
       a.coeff_imax = o.coeff_imax ∧ a.coeff_const = o.coeff_const ∧
       a.coeff_aosoa_group_size = o.coeff_aosoa_group_size ∧
       a.coeff_aosoa_stride = o.coeff_aosoa_group_size)) ∧
    (c10AddrA.addrEq c10AddrB = true ∧ c10AddrB.addrEq c10AddrA = false) ∧
    (c10AddrA.coeff_aosoa_stride ≠ c10AddrB.coeff_aosoa_stride ∧
     c10AddrA.stream_id = c10AddrB.stream_id ∧
     c10AddrA.coeff_i = c10AddrB.coeff_i ∧
     c10AddrA.coeff_imax = c10AddrB.coeff_imax ∧
     c10AddrA.coeff_const = c10AddrB.coeff_const ∧
     c10AddrA.coeff_aosoa_group_size = c10AddrB.coeff_aosoa_group_size) := by
  refine ⟨fun a o => ?_, by decide, by decide⟩
  simp [Address.addrEq, Bool.and_eq_true, beq_iff_eq, and_assoc]

/-!
## C4: first-member memoization of the vectorizer
-/

/-- A scalar load node shared by the two stores below. -/
def c4Load : VNode :=
  { ntype := .load, ch := [], members := [],
    addr := { stream_id := 0, coeff_i := 1, coeff_imax := 0, coeff_const := 0,
              coeff_aosoa_group_size := 0, coeff_aosoa_stride := 0 },
    isVec := false, varName := none }

/-- A scalar store whose value child is the shared load (arena index 0). -/
def c4StoreA : VNode :=
  { ntype := .store, ch := [0], members := [],
    addr := { stream_id := 1, coeff_i := 1, coeff_imax := 0, coeff_const := 0,
              coeff_aosoa_group_size := 0, coeff_aosoa_stride := 0 },
    isVec := false, varName := none }

/-- A second scalar store whose value child is the same shared load. -/
def c4StoreB : VNode :=
  { ntype := .store, ch := [0], members := [],
    addr := { stream_id := 2, coeff_i := 1, coeff_imax := 0, coeff_const := 0,
              coeff_aosoa_group_size := 0, coeff_aosoa_stride := 0 },
    isVec := false, varName := none }

/-- The combine root over the two stores (arena indices 1 and 2). -/
def c4Combine : VNode :=
  { ntype := .combine, ch := [1, 2], members := [], addr := default,
    isVec := false, varName := none }

/-- Initial pipeline state: a scalar DAG in which the load node 0 is
shared by the stores 1 and 2 under the combine root 3. -/
def c4Start : St :=
  { nodes := [c4Load, c4StoreA, c4StoreB, c4Combine], memo := [],
    varCount := 0, order := [], code := [] }

/-- A state whose `scalar_to_vector` map has been populated by hand
(the source never populates it): node 2 is recorded as the vectorized
node for the scalar node 0, and node 1 is a pack with `members = [0]`. -/
def c4ReuseSt : St :=
  { nodes :=
      [c4StoreA,
       { ntype := .store, ch := [], members := [0], addr := default,
         isVec := false, varName := none },
       { ntype := .store, ch := [], members := [0], addr := default,
         isVec := true, varName := none }],
    memo := [(0, 2)], varCount := 0, order := [], code := [] }

/-- C4 (code bug): `scalar_to_vector` is looked up and asserted over but
never inserted into, so the memoization never fires. First conjunct: on
the combine `c4Start` — two singleton store packs whose value children are
the *same* scalar load node 0 — vectorization succeeds and produces the
root 4 with packs 5 and 7, whose synthetic load children 6 and 8 are two
*distinct* vectorized nodes both carrying `members = [0]`, while the memo
map is still empty afterwards: the shared scalar sub-DAG is packed twice,
contradicting the claim's consequence. Second conjunct: the reuse branch
itself behaves as claimed when the map is pre-populated by hand (the
existing node 2 is returned in place of the pack 1 with the state
untouched), confirming the branch is dead only because nothing populates
the map. -/
theorem c4_memoization_never_fires :
    (vectorizeTop 8 1 8 10 c4Start 3).toOption.map
      (fun rs => (rs.1, (getN rs.2 4).ch, (getN rs.2 5).ch, (getN rs.2 7).ch,
                  (getN rs.2 6).members, (getN rs.2 8).members,
                  (getN rs.2 6).isVec, (getN rs.2 8).isVec, rs.2.memo)) =
      some (4, [5, 7], [6], [8], [0], [0], true, true, []) ∧
    vectorizeRec 1 8 5 c4ReuseSt 1 = .ok (2, c4ReuseSt) := by
  exact ⟨rfl, rfl⟩

/-!
## C5: the post-vectorization reachability invariant
-/

/-- C5: after `vectorize` succeeds on a combine root (whose store children
are existing arena nodes), every node reachable from the returned root is
vectorized, and its members list is empty or has length exactly
`group_size`. -/
theorem c5_reachable_invariant (simd gs ng fuel : Nat) (st : St)
    (root q : Nat) (st' : St)
    (hval : ∀ i ∈ (getN st root).ch, i < st.nodes.length)
    (h : vectorizeTop simd gs ng fuel st root = .ok (q, st')) :
    ∀ n, Reach st'.nodes q n →
      (getN st' n).isVec = true ∧
      ((getN st' n).members = [] ∨ (getN st' n).members.length = gs) := by
  simp only [vectorizeTop] at h
  split_ifs at h with h1 h2 h3 h4
  obtain ⟨hq, CO⟩ := chunks_sound gs ng h2 fuel _ st.nodes.length
    (getN st root).ch q st' (by simp) (by simp) (fun i hi => hval i hi)
    (by simpa using h3) h
  subst hq
  obtain ⟨packs, hpk, hpkprops⟩ := CO.packs
  have hroot : getN (pushN { st with memo := [] }
      { ntype := .combine, ch := [], members := [], addr := default,
        isVec := true, varName := none }) st.nodes.length =
      { ntype := .combine, ch := [], members := [], addr := default,
        isVec := true, varName := none } := getN_pushN_len
  intro n hr
  rcases reach_elim hr with heq | ⟨c, hc, hcn⟩
  · subst heq
    rw [hpk, hroot]
    exact ⟨rfl, Or.inl rfl⟩
  · have hc' : c ∈ packs := by
      rw [show (st'.nodes.getD st.nodes.length default) =
        getN st' st.nodes.length from rfl, hpk, hroot] at hc
      simpa using hc
    obtain ⟨_, _, hreach⟩ := hpkprops c hc'
    obtain ⟨hv, hL, _, _⟩ := hreach n hcn
    exact ⟨hv, Or.inr hL⟩

/-- Witness for C5 on the concrete combine `c4Start` (group size 1): the
vectorization succeeds and the returned root satisfies the invariant. -/
theorem c5_reachable_invariant_witness :
    ∃ q st', vectorizeTop 8 1 8 10 c4Start 3 = .ok (q, st') ∧
      (getN st' q).isVec = true ∧
      ((getN st' q).members = [] ∨ (getN st' q).members.length = 1) := by
  rcases hE : vectorizeTop 8 1 8 10 c4Start 3 with e | ⟨q, st'⟩
  · have hOk : (vectorizeTop 8 1 8 10 c4Start 3).toOption.isSome = true := by
      decide
    rw [hE] at hOk
    simp [Except.toOption] at hOk
  · have hinv := c5_reachable_invariant 8 1 8 10 c4Start 3 q st'
      (by decide) hE
    exact ⟨q, st', rfl, (hinv q (Reach.refl q)).1, (hinv q (Reach.refl q)).2⟩

/-!
## C2: the pack-forming adjacency check
-/

/-- C2: the pack-forming pass checks each contiguous chunk of `group_size`
store children. First conjunct: the check succeeds exactly when, in every
chunk, every consecutive pair of member addresses is prior-to related, or
every consecutive pair is `operator==`-equal (so a pair that is neither,
or a chunk mixing the two kinds, fails). Second conjunct: when the check
fails on the store children of the root, the whole compilation pipeline
returns an error and never produces emitted code. -/
theorem c2_pack_adjacency_check (gs : Nat) (addrs : List Address)
    (hgs : 0 < gs) :
    (packAdjCheckOk gs addrs = true ↔
      ∀ c ∈ chunksOf gs addrs,
        (List.Chain' (fun a b => priorTo a b = true) c ∨
         List.Chain' (fun a b => a.addrEq b = true) c)) ∧
    (∀ (simd fuel : Nat) (st : St) (root : Nat) (code : List String),
      (∀ i ∈ (getN st root).ch, i < st.nodes.length) →
      packAdjCheckOk gs
        ((getN st root).ch.map (fun i => (getN st i).addr)) = false →
      runModel simd gs fuel st root ≠ .ok code) := by
  constructor
  · simp only [packAdjCheckOk, List.all_eq_true, chunkCheckOk_iff]
  · intro simd fuel st root code hval hfail hOk
    unfold runModel at hOk
    rw [if_neg (by omega)] at hOk
    obtain ⟨⟨r, st1⟩, hvt, _⟩ := except_bind_ok hOk
    simp only [vectorizeTop] at hvt
    split_ifs at hvt with h1 h2 h3 h4
    obtain ⟨hq, CO⟩ := chunks_sound gs (simd / gs) h2 fuel _
      st.nodes.length (getN st root).ch r st1 (by simp) (by simp)
      (fun i hi => hval i hi) (by simpa using h3) hvt
    have htrue : packAdjCheckOk gs
        ((getN st root).ch.map (fun i => (getN st i).addr)) = true := by
      unfold packAdjCheckOk
      rw [chunksOf_map, List.all_eq_true]
      intro c' hc'
      obtain ⟨c, hc, rfl⟩ := List.mem_map.mp hc'
      have := CO.adj c hc
      have hmapeq : c.map (fun i => (getN (pushN { st with memo := [] }
          { ntype := .combine, ch := [], members := [], addr := default,
            isVec := true, varName := none }) i).addr) =
          c.map (fun i => (getN st i).addr) := by
        apply List.map_congr_left
        intro i hi
        have : i < st.nodes.length := hval i (chunksOf_subset hc i hi)
        rw [getN_pushN_ne
          (show i ≠ ({ st with memo := [] } : St).nodes.length from
            Nat.ne_of_lt this)]
        rfl
      rw [hmapeq] at this
      exact this
    rw [htrue] at hfail
    exact absurd hfail (by simp)

/-- Witness for C2: a neighbouring pair passes the check (via the
characterization applied at concrete addresses), and the check is
decidably exercised on a prior-to chain of two addresses. -/
theorem c2_pack_adjacency_check_witness :
    packAdjCheckOk 2 [c3Pair 0, c3Pair 1] = true ∧ (0 : Nat) < 2 :=
  ⟨(c2_pack_adjacency_check 2 [c3Pair 0, c3Pair 1] (by decide)).1.mpr
    (by
      intro c hc
      rw [show chunksOf 2 [c3Pair 0, c3Pair 1] = [[c3Pair 0, c3Pair 1]]
        from rfl] at hc
      rcases List.mem_singleton.mp hc with rfl
      exact Or.inl (List.chain'_pair.mpr (by decide))),
   by decide⟩

/-!
## C9: uniqueness and sequencing of emitted variable names
-/

/-- C9: starting an emission pass with a fresh counter, empty order and
unnamed nodes, every node reachable from the root is assigned a variable
name and appears exactly once in the emission order (revisits return
early), the assigned names are the sequential strings
`var_0000, var_0001, …` in naming order and are pairwise distinct, and
`create_variable` fails as soon as a 10001st variable would be created. -/
theorem c9_emission_pass (gs ng simd fuel : Nat) (st : St) (root : Nat)
    (st' : St) (h0 : st.varCount = 0) (h1 : st.order = [])
    (h2 : ∀ n, n < st.nodes.length → (getN st n).varName = none)
    (h : codeGenRec gs ng simd fuel st root = .ok st') :
    (∀ n, Reach st.nodes root n →
      (getN st' n).varName.isSome = true ∧ st'.order.count n = 1) ∧
    st'.order.Nodup ∧
    (st'.order.map (fun i => vnameOf (getN st' i))) =
      (List.range st'.order.length).map varNameStr ∧
    (st'.order.map (fun i => vnameOf (getN st' i))).Nodup ∧
    (∀ s : St, 10000 ≤ s.varCount → ∀ r, createVariable s ≠ .ok r) := by
  have W0 : WellNamed st := by
    constructor
    · rw [h0, h1]
      rfl
    · rw [h0]
      omega
    · intro k n hn
      rw [h1] at hn
      simp at hn
    · intro n hn
      rcases Nat.lt_or_ge n st.nodes.length with hlt | hge
      · rw [h2 n hlt] at hn
        exact absurd hn (by simp)
      · rw [getN_oob hge,
          show (default : VNode).varName = none from rfl] at hn
        exact absurd hn (by simp)
  have O := cg_sound gs ng simd fuel st root st' W0 h
  have W' := O.wn
  have hnodup := W'.nodup
  have hmapeq : (st'.order.map (fun i => vnameOf (getN st' i))) =
      (List.range st'.order.length).map varNameStr := by
    apply List.ext_getElem
    · simp
    · intro k hk1 hk2
      simp only [List.getElem_map, List.getElem_range]
      have hk : k < st'.order.length := by simpa using hk1
      have hget : st'.order.get? k = some (st'.order.get ⟨k, hk⟩) :=
        List.get?_eq_get hk
      have hname := W'.order_names k _ hget
      have hgetel : st'.order[k] = st'.order.get ⟨k, hk⟩ := rfl
      rw [hgetel]
      unfold vnameOf
      rw [hname]
  refine ⟨?_, hnodup, hmapeq, ?_, ?_⟩
  · intro n hn
    have hnamed := O.reach_named n hn
    exact ⟨hnamed,
      List.count_eq_one_of_mem hnodup (W'.named_mem n hnamed)⟩
  · rw [hmapeq]
    refine List.Nodup.map_on ?_ (List.nodup_range _)
    intro x hx y hy hxy
    have hxL : x < st'.order.length := List.mem_range.mp hx
    have hyL : y < st'.order.length := List.mem_range.mp hy
    have hcap : st'.order.length ≤ 10000 := by
      have := W'.count_le
      have := W'.count_eq
      omega
    exact varNameStr_inj (by omega) (by omega) hxy
  · intro s hs r hr
    unfold createVariable at hr
    rw [if_neg (by omega)] at hr
    exact Except.noConfusion hr

/-- A small hand-built vectorized IR (group size 1): a combine (node 2)
over a store (node 1) of a load (node 0); each vectorized node is its own
single member. -/
def c9Load : VNode :=
  { ntype := .load, ch := [], members := [0],
    addr := { stream_id := 0, coeff_i := 1, coeff_imax := 0, coeff_const := 0,
              coeff_aosoa_group_size := 8, coeff_aosoa_stride := 0 },
    isVec := true, varName := none }

/-- See `c9Load`. -/
def c9Store : VNode :=
  { ntype := .store, ch := [0], members := [1],
    addr := { stream_id := 1, coeff_i := 1, coeff_imax := 0, coeff_const := 0,
              coeff_aosoa_group_size := 8, coeff_aosoa_stride := 0 },
    isVec := true, varName := none }

/-- See `c9Load`. -/
def c9Combine : VNode :=
  { ntype := .combine, ch := [1], members := [], addr := default,
    isVec := true, varName := none }

/-- Fresh emission state over the vectorized IR of `c9Load`. -/
def c9Start : St :=
  { nodes := [c9Load, c9Store, c9Combine], memo := [], varCount := 0,
    order := [], code := [] }

/-- Witness for C9 on the concrete emission `c9Start` (group size 1,
`simd_width = 8`): emission succeeds, the root is named, appears exactly
once in the emission order, and the order has no duplicates. -/
theorem c9_emission_pass_witness :
    ∃ st', codeGenRec 1 8 8 10 c9Start 2 = .ok st' ∧
      (getN st' 2).varName.isSome = true ∧ st'.order.count 2 = 1 ∧
      st'.order.Nodup := by
  rcases hE : codeGenRec 1 8 8 10 c9Start 2 with e | st'
  · have hOk : (codeGenRec 1 8 8 10 c9Start 2).toOption.isSome = true := by
      decide
    rw [hE] at hOk
    simp [Except.toOption] at hOk
  · have hmain := c9_emission_pass 1 8 8 10 c9Start 2 st' rfl rfl
      (by decide) hE
    exact ⟨st', rfl, (hmain.1 2 (Reach.refl 2)).1,
      (hmain.1 2 (Reach.refl 2)).2, hmain.2.1⟩

end Tlang
